import Mathlib

/-!
# Verification of the oh-my-logo gradient renderer and its cache layer

This file gives a shallow embedding, in Lean 4, of the core logic of the
oh-my-logo repository:

* `src/cache/LRUCache.ts` — the doubly-linked-list LRU cache.  The linked
  list plus hash map of the source maintain a recency order over entries
  with unique keys; we embed this state as a list of key/value pairs whose
  head is the most-recently-used entry.  `moveToFront`/`addToFront`/
  `removeNode` of the source become "remove the key and cons it in front".
  The `timestamp`/`accessCount` bookkeeping fields and the byte-size
  estimate (`Date.now()`-based, purely diagnostic) are not modelled;
  no claim refers to them.
* `src/renderer.ts` — cache keys, `renderLogo`, the horizontal and
  diagonal gradient strategies.  JavaScript numbers are embedded as exact
  rationals (`ℚ`); `Math.floor` is `Int.floor`, and `toFixed(2)` is
  rounding to the nearest hundredth followed by decimal rendering.
* `src/lib.ts` (`resolveColors`), `src/palettes.ts` (`resolvePalette`,
  `PALETTES`) and the `AsciiCache` variant from `utils/cache.ts`.

The external collaborators (figlet, gradient-string) are not part of the
repository; following the specification they are treated as opaque
deterministic functions and appear as parameters of the embedding
(`figlet : String → String → String`, `gradientBuild : List String → GradFn`).
-/

namespace OhMyLogo

/-! ## The LRU cache (src/cache/LRUCache.ts)

State of `LRUCache<T>`: the `entries` list holds the key/value pairs in
recency order, head = most recently used (the list head corresponds to
`this.head`, the last element to `this.tail`); `hits`/`misses` are the two
counters; `maxSize` is the bound fixed at construction. -/

structure LRUCache (T : Type) where
  maxSize : Nat
  entries : List (String × T)
  hits : Nat
  misses : Nat
deriving Repr

/-- `new LRUCache(maxSize)`: empty recency list, zero counters. -/
def LRUCache.empty (T : Type) (maxSize : Nat) : LRUCache T :=
  ⟨maxSize, [], 0, 0⟩

/-- Remove every entry with the given key (under the reachable-state
invariant a key occurs at most once, so this is the source's
`removeNode` on the node found in the map). -/
def removeKey {T : Type} (k : String) : List (String × T) → List (String × T)
  | [] => []
  | (k', v) :: rest =>
      if k' = k then removeKey k rest else (k', v) :: removeKey k rest

/-- `LRUCache.get`: on a miss increment `misses` and return `null`;
on a hit increment `hits`, move the node to the front, return the value. -/
def LRUCache.get {T : Type} (c : LRUCache T) (k : String) :
    Option T × LRUCache T :=
  match List.lookup k c.entries with
  | none => (none, { c with misses := c.misses + 1 })
  | some v =>
      (some v,
        { c with hits := c.hits + 1, entries := (k, v) :: removeKey k c.entries })

/-- `LRUCache.set`: update-and-move-to-front if the key exists (no
eviction), otherwise insert at the front and, if the size now exceeds
`maxSize`, evict the tail (`evictLRU`). -/
def LRUCache.set {T : Type} (c : LRUCache T) (k : String) (v : T) : LRUCache T :=
  match List.lookup k c.entries with
  | some _ => { c with entries := (k, v) :: removeKey k c.entries }
  | none =>
      let es := (k, v) :: c.entries
      { c with entries := if c.maxSize < es.length then es.dropLast else es }

/-- `LRUCache.has`: pure membership test, touches no counter and no order. -/
def LRUCache.has {T : Type} (c : LRUCache T) (k : String) : Bool :=
  (List.lookup k c.entries).isSome

/-- `LRUCache.delete`: remove the entry if present, report whether it was. -/
def LRUCache.delete {T : Type} (c : LRUCache T) (k : String) :
    Bool × LRUCache T :=
  match List.lookup k c.entries with
  | none => (false, c)
  | some _ => (true, { c with entries := removeKey k c.entries })

/-- `LRUCache.clear`: drop all entries and reset both counters. -/
def LRUCache.clear {T : Type} (c : LRUCache T) : LRUCache T :=
  { c with entries := [], hits := 0, misses := 0 }

/-- The fields of `getStats` that the claims refer to (`memoryUsage` and
the two timestamps are `Date.now()`-based diagnostics, not modelled). -/
structure CacheStats where
  size : Nat
  maxSize : Nat
  hits : Nat
  misses : Nat
  hitRate : ℚ
deriving Repr

/-- `LRUCache.getStats`: `hitRate` is `hits / (hits + misses)` when at
least one `get` happened, else `0`. -/
def LRUCache.getStats {T : Type} (c : LRUCache T) : CacheStats :=
  { size := c.entries.length
    maxSize := c.maxSize
    hits := c.hits
    misses := c.misses
    hitRate := if 0 < c.hits + c.misses then (c.hits : ℚ) / ((c.hits : ℚ) + (c.misses : ℚ)) else 0 }

/-! Basic lemmas about the recency list. -/

theorem removeKey_subset {T : Type} (k : String) (l : List (String × T)) :
    ∀ p ∈ removeKey k l, p ∈ l := by
  induction l with
  | nil => intro p hp; simp [removeKey] at hp
  | cons a rest ih =>
      rcases a with ⟨k', v⟩
      intro p hp
      unfold removeKey at hp
      by_cases h : k' = k
      · rw [if_pos h] at hp
        exact List.mem_cons_of_mem _ (ih p hp)
      · rw [if_neg h] at hp
        rcases List.mem_cons.mp hp with h' | h'
        · exact h' ▸ List.mem_cons_self _ _
        · exact List.mem_cons_of_mem _ (ih p h')

theorem dropLast_subset {α : Type} (l : List α) : ∀ p ∈ l.dropLast, p ∈ l :=
  fun _ hp => List.dropLast_subset l hp

/-- Reading a key right after writing it returns the written value,
provided the cache can hold at least one entry. -/
theorem lookup_set_self {T : Type} (c : LRUCache T) (k : String) (v : T)
    (hmax : 1 ≤ c.maxSize) :
    List.lookup k (c.set k v).entries = some v := by
  unfold LRUCache.set
  cases hl : List.lookup k c.entries with
  | some w => simp [List.lookup]
  | none =>
      simp only
      by_cases hsz : c.maxSize < ((k, v) :: c.entries).length
      · rw [if_pos hsz]
        cases hce : c.entries with
        | nil =>
            rw [hce] at hsz
            simp at hsz
            omega
        | cons a rest =>
            rw [List.dropLast_cons₂]
            simp [List.lookup]
      · rw [if_neg hsz]
        simp [List.lookup]

/-! Lookup helper lemmas for recency lists. -/

theorem lookup_cons_self {T : Type} (k : String) (v : T) (l : List (String × T)) :
    List.lookup k ((k, v) :: l) = some v := by
  simp [List.lookup]

theorem lookup_cons_ne {T : Type} {k k' : String} (v : T) (l : List (String × T))
    (h : k ≠ k') : List.lookup k ((k', v) :: l) = List.lookup k l := by
  have hb : (k == k') = false := beq_eq_false_iff_ne.mpr h
  simp [List.lookup, hb]

theorem lookup_eq_none_of_not_mem {T : Type} {k : String} :
    ∀ {l : List (String × T)}, k ∉ l.map Prod.fst → List.lookup k l = none := by
  intro l
  induction l with
  | nil => intro _; rfl
  | cons a rest ih =>
      rcases a with ⟨k', v⟩
      intro h
      have h1 : k ≠ k' := fun he => h (by simp [he])
      rw [lookup_cons_ne v rest h1]
      exact ih (fun hm => h (by simp [hm]))

theorem lookup_of_mem_nodup {T : Type} {k : String} {v : T} :
    ∀ {l : List (String × T)}, (k, v) ∈ l → (l.map Prod.fst).Nodup →
      List.lookup k l = some v := by
  intro l
  induction l with
  | nil => intro h _; simp at h
  | cons a rest ih =>
      rcases a with ⟨k', v'⟩
      intro hm hnd
      have hnd0 := List.nodup_cons.mp hnd
      rcases List.mem_cons.mp hm with he | hm'
      · rw [Prod.mk.injEq] at he
        rw [← he.1, ← he.2]
        exact lookup_cons_self k v rest
      · have h1 : k ≠ k' := by
          intro he
          apply hnd0.1
          rw [← he]
          exact List.mem_map.mpr ⟨(k, v), hm', rfl⟩
        rw [lookup_cons_ne v' rest h1]
        exact ih hm' hnd0.2

theorem removeKey_append {T : Type} (k : String) (l l' : List (String × T)) :
    removeKey k (l ++ l') = removeKey k l ++ removeKey k l' := by
  induction l with
  | nil => rfl
  | cons a rest ih =>
      rcases a with ⟨k', v⟩
      by_cases h : k' = k
      · simp [removeKey, h, ih]
      · simp [removeKey, h, ih]

theorem removeKey_of_not_mem {T : Type} {k : String} :
    ∀ {l : List (String × T)}, k ∉ l.map Prod.fst → removeKey k l = l := by
  intro l
  induction l with
  | nil => intro _; rfl
  | cons a rest ih =>
      rcases a with ⟨k', v⟩
      intro h
      have h1 : k' ≠ k := fun he => h (by simp [he])
      simp only [removeKey, if_neg h1]
      rw [ih (fun hm => h (by simp [hm]))]

/-! Structural facts: no cache operation ever changes `maxSize`. -/

theorem set_maxSize {T : Type} (c : LRUCache T) (k : String) (v : T) :
    (c.set k v).maxSize = c.maxSize := by
  unfold LRUCache.set
  cases List.lookup k c.entries <;> rfl

theorem get_maxSize {T : Type} (c : LRUCache T) (k : String) :
    (c.get k).2.maxSize = c.maxSize := by
  unfold LRUCache.get
  cases List.lookup k c.entries <;> rfl

/-- Inserting a fresh key into a cache that is strictly below capacity
just conses the new entry in front of the recency list. -/
theorem set_fresh_no_evict {T : Type} (c : LRUCache T) (k : String) (v : T)
    (hfresh : List.lookup k c.entries = none)
    (hroom : c.entries.length + 1 ≤ c.maxSize) :
    c.set k v = { c with entries := (k, v) :: c.entries } := by
  unfold LRUCache.set
  rw [hfresh]
  simp only
  have : ¬ c.maxSize < ((k, v) :: c.entries).length := by
    simp only [List.length_cons]
    omega
  rw [if_neg this]

/-- Folding `set` over a list of key/value pairs (the claims' "sequence of
insertions"). -/
def foldSet {T : Type} (c : LRUCache T) (ps : List (String × T)) : LRUCache T :=
  ps.foldl (fun a p => a.set p.1 p.2) c

theorem foldSet_append {T : Type} (c : LRUCache T) (ps qs : List (String × T)) :
    foldSet c (ps ++ qs) = foldSet (foldSet c ps) qs :=
  List.foldl_append ..

/-- Inserting a block of pairwise-distinct fresh keys while staying within
capacity: the recency list becomes the reversed block in front of the old
entries, and nothing else changes. -/
theorem foldSet_fresh {T : Type} :
    ∀ (ps : List (String × T)) (c : LRUCache T),
      (∀ p ∈ ps, List.lookup p.1 c.entries = none) →
      (ps.map Prod.fst).Nodup →
      c.entries.length + ps.length ≤ c.maxSize →
      foldSet c ps = { c with entries := ps.reverse ++ c.entries } := by
  intro ps
  induction ps with
  | nil => intro c _ _ _; simp [foldSet]
  | cons p rest ih =>
      intro c hfresh hnd hroom
      have hstep : c.set p.1 p.2 = { c with entries := (p.1, p.2) :: c.entries } := by
        apply set_fresh_no_evict
        · exact hfresh p (List.mem_cons_self _ _)
        · simp only [List.length_cons] at hroom; omega
      have hfoldstep : foldSet c (p :: rest) = foldSet (c.set p.1 p.2) rest := rfl
      rw [hfoldstep, hstep]
      have hnd0 := List.nodup_cons.mp hnd
      have hnd' : (rest.map Prod.fst).Nodup := hnd0.2
      have hp1 : p.1 ∉ rest.map Prod.fst := hnd0.1
      have hfresh' : ∀ q ∈ rest,
          List.lookup q.1 ((p.1, p.2) :: c.entries) = none := by
        intro q hq
        have hne : q.1 ≠ p.1 := by
          intro he
          exact hp1 (he ▸ List.mem_map_of_mem Prod.fst hq)
        rw [lookup_cons_ne _ _ hne]
        exact hfresh q (List.mem_cons_of_mem _ hq)
      have := ih { c with entries := (p.1, p.2) :: c.entries } hfresh' hnd'
        (by simp only [List.length_cons]; simp only [List.length_cons] at hroom; omega)
      rw [this]
      simp

/-- C7 — Cache read-after-write correctness: for every key and value,
`set(k, v)` immediately followed by `get(k)` returns exactly `v`,
whatever the cache's prior contents, for any cache that can hold at least
one entry (`new LRUCache(maxSize)` with `maxSize ≥ 1`; the source default
is 1000). -/
theorem c7_set_then_get {T : Type} (c : LRUCache T) (k : String) (v : T)
    (hmax : 1 ≤ c.maxSize) :
    ((c.set k v).get k).1 = some v := by
  unfold LRUCache.get
  rw [lookup_set_self c k v hmax]

/-- Witness for C7 at a concrete input. -/
theorem c7_set_then_get_witness :
    1 ≤ (LRUCache.empty Nat 1).maxSize ∧
      (((LRUCache.empty Nat 1).set "key" 7).get "key").1 = some 7 :=
  ⟨by decide, c7_set_then_get (LRUCache.empty Nat 1) "key" 7 (by decide)⟩

/-- C2 counterexample: the claim allows `maxSize N = 1`, but with `N = 1`
the protection by `get` fails.  Insert `"a"`, `get "a"` (so `"a"` is the
most recently used entry), then insert `"b"`: the cache holds 2 > 1
entries, and `evictLRU` removes the tail — which is `"a"` itself.  The
first-inserted key does not survive, contradicting the claim's
"that key survives and the second-inserted key is evicted instead". -/
theorem c2_counterexample :
    List.lookup "a"
        (((((LRUCache.empty Nat 1).set "a" 1).get "a").2.set "b" 2).entries) = none
      ∧ List.lookup "b"
        (((((LRUCache.empty Nat 1).set "a" 1).get "a").2.set "b" 2).entries) = some 2 := by
  constructor <;> rfl

/-- C2 (amended) — LRU eviction order.  Inserting `N+1` distinct keys
(`p₀ :: mid ++ [plast]`, so `N = mid.length + 1 ≥ 1`) into an empty cache
of `maxSize N` with no intervening `get` evicts exactly the
first-inserted key `p₀` and no other.  If instead `p₀` is read with `get`
after the first `N` insertions and before the `(N+1)`-th, and `N ≥ 2`
(encoded by `mid = p₁ :: rest'`), then `p₀` survives and the
second-inserted key `p₁` is evicted instead.  (The claim's `N = 1` case
for the `get` variant is false, see `c2_counterexample`.) -/
theorem c2_lru_eviction_order {T : Type} (N : Nat) (p₀ plast : String × T)
    (mid : List (String × T)) (hlen : mid.length + 1 = N)
    (hnd : ((p₀ :: mid ++ [plast]).map Prod.fst).Nodup) :
    (List.lookup p₀.1 (foldSet (LRUCache.empty T N) (p₀ :: mid ++ [plast])).entries = none
      ∧ ∀ p ∈ mid ++ [plast],
          List.lookup p.1
            (foldSet (LRUCache.empty T N) (p₀ :: mid ++ [plast])).entries = some p.2)
    ∧ (∀ p₁ rest', mid = p₁ :: rest' →
        List.lookup p₀.1
            ((((foldSet (LRUCache.empty T N) (p₀ :: p₁ :: rest')).get p₀.1).2.set
              plast.1 plast.2).entries) = some p₀.2
          ∧ List.lookup p₁.1
              ((((foldSet (LRUCache.empty T N) (p₀ :: p₁ :: rest')).get p₀.1).2.set
                plast.1 plast.2).entries) = none
          ∧ ∀ p ∈ rest' ++ [plast],
              List.lookup p.1
                ((((foldSet (LRUCache.empty T N) (p₀ :: p₁ :: rest')).get p₀.1).2.set
                  plast.1 plast.2).entries) = some p.2) := by
  -- decompose the nodup hypothesis
  have hnd1 := List.nodup_cons.mp hnd
  have hp₀ : p₀.1 ∉ mid.map Prod.fst ++ [plast.1] := by
    simpa using hnd1.1
  have hnd2 : (mid.map Prod.fst ++ [plast.1]).Nodup := by
    simpa using hnd1.2
  have hnd2' := List.nodup_append.mp hnd2
  have hplast_mid : plast.1 ∉ mid.map Prod.fst := by
    intro hm
    exact hnd2'.2.2 hm (List.mem_singleton_self _)
  have hp₀mid : p₀.1 ∉ mid.map Prod.fst := fun hm => hp₀ (List.mem_append_left _ hm)
  have hp₀plast : p₀.1 ≠ plast.1 := by
    intro he
    exact hp₀ (List.mem_append_right _ (he ▸ List.mem_singleton_self _))
  constructor
  · -- part A: no intervening get
    have hsplit : p₀ :: mid ++ [plast] = (p₀ :: mid) ++ [plast] := by simp
    have hc₁ : foldSet (LRUCache.empty T N) (p₀ :: mid) =
        { LRUCache.empty T N with entries := (p₀ :: mid).reverse ++ [] } := by
      apply foldSet_fresh
      · intro p _; rfl
      · exact List.nodup_cons.mpr ⟨hp₀mid, hnd2'.1⟩
      · have he1 : (LRUCache.empty T N).entries.length = 0 := rfl
        have he2 : (LRUCache.empty T N).maxSize = N := rfl
        rw [he1, he2]
        simp only [List.length_cons]
        omega
    have hfold : foldSet (LRUCache.empty T N) (p₀ :: mid ++ [plast]) =
        (foldSet (LRUCache.empty T N) (p₀ :: mid)).set plast.1 plast.2 := by
      rw [hsplit, foldSet_append]; rfl
    have hentries₁ : (foldSet (LRUCache.empty T N) (p₀ :: mid)).entries =
        mid.reverse ++ [p₀] := by
      rw [hc₁]; simp
    have hmax₁ : (foldSet (LRUCache.empty T N) (p₀ :: mid)).maxSize = N := by
      rw [hc₁]; rfl
    -- the final set: plast is fresh, the cache is full, the tail p₀ is evicted
    have hfreshlast : List.lookup plast.1
        (foldSet (LRUCache.empty T N) (p₀ :: mid)).entries = none := by
      rw [hentries₁]
      apply lookup_eq_none_of_not_mem
      intro hm
      rw [List.map_append, List.mem_append] at hm
      rcases hm with hm | hm
      · rw [List.map_reverse] at hm
        exact hplast_mid (List.mem_reverse.mp hm)
      · simp at hm
        exact hp₀plast hm.symm
    have hfinal : (foldSet (LRUCache.empty T N) (p₀ :: mid ++ [plast])).entries =
        plast :: mid.reverse := by
      rw [hfold]
      unfold LRUCache.set
      rw [hfreshlast]
      simp only
      rw [hentries₁, hmax₁]
      have hlen2 : ((plast.1, plast.2) :: (mid.reverse ++ [p₀])).length = N + 1 := by
        simp; omega
      rw [if_pos (by rw [hlen2]; omega)]
      have : (plast.1, plast.2) :: (mid.reverse ++ [p₀]) =
          ((plast :: mid.reverse) ++ [p₀]) := by simp
      rw [this, List.dropLast_concat]
    have hkeysfinal : ((plast :: mid.reverse).map Prod.fst).Nodup := by
      refine List.nodup_cons.mpr ⟨?_, ?_⟩
      · rw [List.map_reverse]
        intro hm
        exact hplast_mid (List.mem_reverse.mp hm)
      · rw [List.map_reverse]
        exact (List.nodup_reverse.mpr hnd2'.1)
    constructor
    · rw [hfinal]
      apply lookup_eq_none_of_not_mem
      intro hm
      rcases List.mem_cons.mp hm with hm | hm
      · exact hp₀plast hm
      · rw [List.map_reverse] at hm
        exact hp₀mid (List.mem_reverse.mp hm)
    · intro p hp
      rw [hfinal]
      apply lookup_of_mem_nodup _ hkeysfinal
      rw [List.mem_append] at hp
      rcases hp with hp | hp
      · exact List.mem_cons_of_mem _ (List.mem_reverse.mpr hp)
      · simp at hp
        rw [hp]
        exact List.mem_cons_self _ _
  · -- part B: get p₀ before the last insertion (needs N ≥ 2)
    intro p₁ rest' hmid
    subst hmid
    have hnodupfirst : ((p₀ :: p₁ :: rest').map Prod.fst).Nodup :=
      List.nodup_cons.mpr ⟨hp₀mid, hnd2'.1⟩
    have hc₁ : foldSet (LRUCache.empty T N) (p₀ :: p₁ :: rest') =
        { LRUCache.empty T N with entries := (p₀ :: p₁ :: rest').reverse ++ [] } := by
      apply foldSet_fresh
      · intro p _; rfl
      · exact hnodupfirst
      · simp [LRUCache.empty]
        simp at hlen
        omega
    have hentries₁ : (foldSet (LRUCache.empty T N) (p₀ :: p₁ :: rest')).entries =
        (rest'.reverse ++ [p₁]) ++ [p₀] := by
      rw [hc₁]; simp
    have hmax₁ : (foldSet (LRUCache.empty T N) (p₀ :: p₁ :: rest')).maxSize = N := by
      rw [hc₁]; rfl
    -- the get hits p₀ and moves it to the front
    have hkeys₁ : (((rest'.reverse ++ [p₁]) ++ [p₀]).map Prod.fst).Nodup := by
      have : ((rest'.reverse ++ [p₁]) ++ [p₀]) = (p₀ :: p₁ :: rest').reverse := by simp
      rw [this, List.map_reverse]
      exact List.nodup_reverse.mpr hnodupfirst
    have hlookup₀ : List.lookup p₀.1
        (foldSet (LRUCache.empty T N) (p₀ :: p₁ :: rest')).entries = some p₀.2 := by
      rw [hentries₁]
      exact lookup_of_mem_nodup (by simp) hkeys₁
    have hp₀rest' : p₀.1 ∉ rest'.map Prod.fst := by
      intro hm
      exact hp₀mid (by simp [hm])
    have hp₀p₁ : p₀.1 ≠ p₁.1 := by
      intro he
      exact hp₀mid (by simp [he])
    have hget : ((foldSet (LRUCache.empty T N) (p₀ :: p₁ :: rest')).get p₀.1).2.entries =
        p₀ :: (rest'.reverse ++ [p₁]) := by
      unfold LRUCache.get
      rw [hlookup₀]
      simp only
      rw [hentries₁, removeKey_append, removeKey_append]
      have h1 : removeKey p₀.1 rest'.reverse = rest'.reverse := by
        apply removeKey_of_not_mem
        rw [List.map_reverse]
        intro hm
        exact hp₀rest' (List.mem_reverse.mp hm)
      have h2 : removeKey p₀.1 [p₁] = [p₁] := by
        apply removeKey_of_not_mem
        simpa using hp₀p₁
      have h3 : removeKey p₀.1 [p₀] = [] := by
        simp [removeKey]
      rw [h1, h2, h3]
      simp
    have hgetmax : ((foldSet (LRUCache.empty T N) (p₀ :: p₁ :: rest')).get p₀.1).2.maxSize
        = N := by
      rw [get_maxSize, hmax₁]
    -- final set of plast evicts the tail p₁
    have hplast_rest' : plast.1 ∉ rest'.map Prod.fst := by
      intro hm
      exact hplast_mid (by simp [hm])
    have hplast_p₁ : plast.1 ≠ p₁.1 := by
      intro he
      exact hplast_mid (by simp [he])
    have hfreshlast : List.lookup plast.1
        (((foldSet (LRUCache.empty T N) (p₀ :: p₁ :: rest')).get p₀.1).2.entries) = none := by
      rw [hget]
      apply lookup_eq_none_of_not_mem
      intro hm
      rcases List.mem_cons.mp hm with hm | hm
      · exact hp₀plast hm.symm
      · rw [List.map_append, List.mem_append] at hm
        rcases hm with hm | hm
        · rw [List.map_reverse] at hm
          exact hplast_rest' (List.mem_reverse.mp hm)
        · simp at hm
          exact hplast_p₁ hm
    have hfinal : ((((foldSet (LRUCache.empty T N) (p₀ :: p₁ :: rest')).get p₀.1).2).set
        plast.1 plast.2).entries = plast :: p₀ :: rest'.reverse := by
      unfold LRUCache.set
      rw [hfreshlast]
      simp only
      rw [hget, hgetmax]
      have hlen2 : ((plast.1, plast.2) :: (p₀ :: (rest'.reverse ++ [p₁]))).length = N + 1 := by
        simp
        simp at hlen
        omega
      rw [if_pos (by rw [hlen2]; omega)]
      have : (plast.1, plast.2) :: (p₀ :: (rest'.reverse ++ [p₁])) =
          ((plast :: p₀ :: rest'.reverse) ++ [p₁]) := by simp
      rw [this, List.dropLast_concat]
    have hkeysfinal : ((plast :: p₀ :: rest'.reverse).map Prod.fst).Nodup := by
      have hrestnd : (rest'.map Prod.fst).Nodup := by
        have := List.nodup_cons.mp hnd2'.1
        exact this.2
      refine List.nodup_cons.mpr ⟨?_, List.nodup_cons.mpr ⟨?_, ?_⟩⟩
      · intro hm
        rcases List.mem_cons.mp hm with hm | hm
        · exact hp₀plast hm.symm
        · rw [List.map_reverse] at hm
          exact hplast_rest' (List.mem_reverse.mp hm)
      · rw [List.map_reverse]
        intro hm
        exact hp₀rest' (List.mem_reverse.mp hm)
      · rw [List.map_reverse]
        exact List.nodup_reverse.mpr hrestnd
    refine ⟨?_, ?_, ?_⟩
    · rw [hfinal]
      exact lookup_of_mem_nodup (by simp) hkeysfinal
    · rw [hfinal]
      apply lookup_eq_none_of_not_mem
      intro hm
      rcases List.mem_cons.mp hm with hm | hm
      · exact hplast_p₁ hm.symm
      · rcases List.mem_cons.mp hm with hm | hm
        · exact hp₀p₁ hm.symm
        · rw [List.map_reverse] at hm
          have := List.nodup_cons.mp hnd2'.1
          exact this.1 (List.mem_reverse.mp hm)
    · intro p hp
      rw [hfinal]
      apply lookup_of_mem_nodup _ hkeysfinal
      rw [List.mem_append] at hp
      rcases hp with hp | hp
      · exact List.mem_cons_of_mem _ (List.mem_cons_of_mem _ (List.mem_reverse.mpr hp))
      · simp at hp
        rw [hp]
        exact List.mem_cons_self _ _

/-- Witness for C2 at a concrete instance: `N = 2`, keys a, b, c. -/
theorem c2_lru_eviction_order_witness :
    ((([("b", 2)] : List (String × Nat)).length + 1 = 2)
      ∧ ((( ("a", 1) :: [("b", 2)] ++ [("c", 3)]).map Prod.fst).Nodup))
    ∧ (List.lookup "a"
          (foldSet (LRUCache.empty Nat 2) (("a", 1) :: [("b", 2)] ++ [("c", 3)])).entries
          = none
        ∧ ∀ p ∈ [("b", 2)] ++ [("c", 3)],
            List.lookup p.1
              (foldSet (LRUCache.empty Nat 2) (("a", 1) :: [("b", 2)] ++ [("c", 3)])).entries
              = some p.2)
    ∧ (∀ p₁ rest', ([("b", 2)] : List (String × Nat)) = p₁ :: rest' →
        List.lookup "a"
            ((((foldSet (LRUCache.empty Nat 2) (("a", 1) :: p₁ :: rest')).get "a").2.set
              "c" 3).entries) = some 1
          ∧ List.lookup p₁.1
              ((((foldSet (LRUCache.empty Nat 2) (("a", 1) :: p₁ :: rest')).get "a").2.set
                "c" 3).entries) = none
          ∧ ∀ p ∈ rest' ++ [("c", 3)],
              List.lookup p.1
                ((((foldSet (LRUCache.empty Nat 2) (("a", 1) :: p₁ :: rest')).get "a").2.set
                  "c" 3).entries) = some p.2) :=
  ⟨⟨rfl, by decide⟩,
    (c2_lru_eviction_order 2 ("a", 1) ("c", 3) [("b", 2)] rfl (by decide)).1,
    (c2_lru_eviction_order 2 ("a", 1) ("c", 3) [("b", 2)] rfl (by decide)).2⟩

/-! ## Decimal rendering

`shift.toFixed(2)` (renderer.ts) and `JSON.stringify` of a number render
decimal digits.  `natDigits` is the usual base-10 rendering; `digitsVal`
is its left inverse, which gives injectivity. -/

def digitChar : Nat → Char
  | 0 => '0'
  | 1 => '1'
  | 2 => '2'
  | 3 => '3'
  | 4 => '4'
  | 5 => '5'
  | 6 => '6'
  | 7 => '7'
  | 8 => '8'
  | 9 => '9'
  | _ => '*'

def natDigitsAux : Nat → Nat → List Char
  | _, 0 => []
  | n, fuel + 1 =>
      if n < 10 then [digitChar n]
      else natDigitsAux (n / 10) fuel ++ [digitChar (n % 10)]

def natDigits (n : Nat) : List Char := natDigitsAux n (n + 1)

theorem natDigitsAux_small {n : Nat} (fuel : Nat) (h : n < 10) :
    natDigitsAux n (fuel + 1) = [digitChar n] := by
  simp [natDigitsAux, h]

theorem natDigitsAux_large {n : Nat} (fuel : Nat) (h : ¬ n < 10) :
    natDigitsAux n (fuel + 1) = natDigitsAux (n / 10) fuel ++ [digitChar (n % 10)] := by
  simp [natDigitsAux, h]

theorem natDigits_small {n : Nat} (h : n < 10) : natDigits n = [digitChar n] :=
  natDigitsAux_small n h

def digitVal (c : Char) : Nat := c.toNat - 48

def digitsVal (ds : List Char) : Nat :=
  ds.foldl (fun a c => 10 * a + digitVal c) 0

theorem digitVal_digitChar {a : Nat} (h : a < 10) : digitVal (digitChar a) = a := by
  interval_cases a <;> decide

theorem digitsVal_append_single (ds : List Char) (c : Char) :
    digitsVal (ds ++ [c]) = 10 * digitsVal ds + digitVal c := by
  simp [digitsVal, List.foldl_append]

theorem digitsVal_natDigitsAux :
    ∀ fuel n, n < fuel → digitsVal (natDigitsAux n fuel) = n := by
  intro fuel
  induction fuel with
  | zero => intro n h; omega
  | succ fuel ih =>
      intro n h
      by_cases h10 : n < 10
      · rw [natDigitsAux_small fuel h10]
        simp [digitsVal]
        exact digitVal_digitChar h10
      · rw [natDigitsAux_large fuel h10, digitsVal_append_single,
          ih (n / 10) (by omega), digitVal_digitChar (Nat.mod_lt n (by omega))]
        omega

theorem digitsVal_natDigits : ∀ n, digitsVal (natDigits n) = n := by
  intro n
  exact digitsVal_natDigitsAux (n + 1) n (by omega)

theorem natDigits_inj {a b : Nat} (h : natDigits a = natDigits b) : a = b := by
  rw [← digitsVal_natDigits a, ← digitsVal_natDigits b, h]

theorem digitChar_mem_range {a : Nat} (h : a < 10) :
    48 ≤ (digitChar a).toNat ∧ (digitChar a).toNat ≤ 57 := by
  interval_cases a <;> decide

theorem natDigitsAux_chars :
    ∀ fuel n, ∀ c ∈ natDigitsAux n fuel, 48 ≤ c.toNat ∧ c.toNat ≤ 57 := by
  intro fuel
  induction fuel with
  | zero => intro n c hc; simp [natDigitsAux] at hc
  | succ fuel ih =>
      intro n c hc
      by_cases h : n < 10
      · rw [natDigitsAux_small fuel h, List.mem_singleton] at hc
        rw [hc]
        exact digitChar_mem_range h
      · rw [natDigitsAux_large fuel h, List.mem_append] at hc
        rcases hc with hc | hc
        · exact ih (n / 10) c hc
        · rw [List.mem_singleton] at hc
          rw [hc]
          exact digitChar_mem_range (Nat.mod_lt n (by omega))

theorem natDigits_chars : ∀ n, ∀ c ∈ natDigits n, 48 ≤ c.toNat ∧ c.toNat ≤ 57 := by
  intro n
  exact natDigitsAux_chars (n + 1) n

theorem dot_not_mem_natDigits (n : Nat) : '.' ∉ natDigits n := by
  intro hm
  have := natDigits_chars n '.' hm
  revert this
  decide

/-- If a marker character occurs in neither prefix, splitting at its first
occurrence is unambiguous. -/
theorem append_marker_inj {c : Char} :
    ∀ (a a' b b' : List Char), c ∉ a → c ∉ a' →
      a ++ c :: b = a' ++ c :: b' → a = a' ∧ b = b' := by
  intro a
  induction a with
  | nil =>
      intro a' b b' _ ha'
      cases a' with
      | nil => intro h; simpa using h
      | cons x xs =>
          intro h
          simp only [List.nil_append, List.cons_append, List.cons.injEq] at h
          exfalso
          exact ha' (h.1 ▸ List.mem_cons_self _ _)
  | cons x xs ih =>
      intro a' b b' ha ha'
      cases a' with
      | nil =>
          intro h
          simp only [List.cons_append, List.nil_append, List.cons.injEq] at h
          exfalso
          exact ha (h.1.symm ▸ List.mem_cons_self _ _)
      | cons y ys =>
          intro h
          simp only [List.cons_append, List.cons.injEq] at h
          have hx : c ∉ xs := fun hm => ha (List.mem_cons_of_mem _ hm)
          have hy : c ∉ ys := fun hm => ha' (List.mem_cons_of_mem _ hm)
          have := ih ys b b' hx hy h.2
          exact ⟨by rw [h.1, this.1], this.2⟩

/-- The two-digit rendering used for the fractional part of `toFixed(2)`. -/
def pad2 (r : Nat) : List Char :=
  if r < 10 then '0' :: natDigits r else natDigits r

theorem natDigitsAux_small_pos {n fuel : Nat} (h : n < 10) (hf : 1 ≤ fuel) :
    natDigitsAux n fuel = [digitChar n] := by
  cases fuel with
  | zero => omega
  | succ fuel => exact natDigitsAux_small fuel h

theorem natDigits_two_digit {r : Nat} (h1 : 10 ≤ r) (h2 : r < 100) :
    natDigits r = [digitChar (r / 10), digitChar (r % 10)] := by
  unfold natDigits
  rw [natDigitsAux_large r (by omega)]
  rw [natDigitsAux_small_pos (by omega) (by omega)]
  rfl

theorem digitChar_eq_digitChar {a b : Nat} (ha : a < 10) (hb : b < 10)
    (h : digitChar a = digitChar b) : a = b := by
  interval_cases a <;> interval_cases b <;> revert h <;> decide

theorem pad2_inj {r r' : Nat} (hr : r < 100) (hr' : r' < 100)
    (h : pad2 r = pad2 r') : r = r' := by
  unfold pad2 at h
  by_cases h1 : r < 10 <;> by_cases h2 : r' < 10
  · rw [if_pos h1, if_pos h2] at h
    exact natDigits_inj (List.cons.inj h).2
  · rw [if_pos h1, if_neg h2] at h
    rw [natDigits_two_digit (by omega) hr'] at h
    rw [natDigits_small h1] at h
    have hhead := (List.cons.inj h).1
    have : r' / 10 = 0 := by
      have h10 : (0 : Nat) < 10 := by omega
      exact (digitChar_eq_digitChar h10 (by omega) hhead).symm
    omega
  · rw [if_neg h1, if_pos h2] at h
    rw [natDigits_two_digit (by omega) hr] at h
    rw [natDigits_small h2] at h
    have hhead := (List.cons.inj h).1
    have : r / 10 = 0 := by
      have h10 : (0 : Nat) < 10 := by omega
      exact digitChar_eq_digitChar (by omega) h10 hhead
    omega
  · rw [if_neg h1, if_neg h2] at h
    exact natDigits_inj h

theorem pad2_chars (r : Nat) : ∀ c ∈ pad2 r, 48 ≤ c.toNat ∧ c.toNat ≤ 57 := by
  unfold pad2
  by_cases h : r < 10
  · rw [if_pos h]
    intro c hc
    rcases List.mem_cons.mp hc with hc | hc
    · rw [hc]; decide
    · exact natDigits_chars r c hc
  · rw [if_neg h]
    exact natDigits_chars r

/-- `m.toFixed(2)`-style digit rendering of `m` hundredths (`m ≥ 0`):
integer part, '.', two fractional digits. -/
def toFixed2Digits (m : Nat) : List Char :=
  natDigits (m / 100) ++ '.' :: pad2 (m % 100)

theorem toFixed2Digits_inj {m m' : Nat} (h : toFixed2Digits m = toFixed2Digits m') :
    m = m' := by
  unfold toFixed2Digits at h
  have := append_marker_inj _ _ _ _ (dot_not_mem_natDigits (m / 100))
    (dot_not_mem_natDigits (m' / 100)) h
  have h1 : m / 100 = m' / 100 := natDigits_inj this.1
  have h2 : m % 100 = m' % 100 :=
    pad2_inj (Nat.mod_lt m (by omega)) (Nat.mod_lt m' (by omega)) this.2
  omega

/-- `shift.toFixed(2)` of renderer.ts: JavaScript renders the closest
2-decimal representation, ties toward `+∞` (ECMA: "pick the larger n"),
which is exactly Mathlib's `round`.  The JS number is modelled as the
exact rational. -/
def toFixed2 (q : ℚ) : String :=
  let m : ℤ := round (q * 100)
  if m < 0 then ⟨'-' :: toFixed2Digits m.natAbs⟩ else ⟨toFixed2Digits m.toNat⟩

theorem round_nonneg {q : ℚ} (h : 0 ≤ q) : 0 ≤ round q := by
  rw [round_eq]
  have : (0 : ℤ) = ⌊(1 : ℚ) / 2⌋ := by norm_num
  rw [this]
  exact Int.floor_mono (by linarith)

theorem toFixed2_inj_nonneg {q q' : ℚ} (h : 0 ≤ q) (h' : 0 ≤ q')
    (heq : toFixed2 q = toFixed2 q') : round (q * 100) = round (q' * 100) := by
  have hm : ¬ round (q * 100) < 0 := not_lt.mpr (round_nonneg (by positivity))
  have hm' : ¬ round (q' * 100) < 0 := not_lt.mpr (round_nonneg (by positivity))
  unfold toFixed2 at heq
  rw [if_neg hm, if_neg hm'] at heq
  have hd : toFixed2Digits (round (q * 100)).toNat
      = toFixed2Digits (round (q' * 100)).toNat := congrArg String.data heq
  have := toFixed2Digits_inj hd
  omega

/-! ## Cache key fingerprints (renderer.ts lines 7–17) -/

/-- `getFigletCacheKey(text, font)` is the template string `text:font`. -/
def getFigletCacheKey (text font : String) : String :=
  text ++ ":" ++ font

/-- JavaScript `Array.prototype.join(',')`. -/
def joinComma : List String → String
  | [] => ""
  | [s] => s
  | s :: rest => s ++ "," ++ joinComma rest

/-- `getGradientCacheKey(palette)` is `palette.join(',')`. -/
def getGradientCacheKey (palette : List String) : String :=
  joinComma palette

/-- `getDiagonalCacheKey(palette, shift)` is
`palette.join(',') + ':' + shift.toFixed(2)`. -/
def getDiagonalCacheKey (palette : List String) (shift : ℚ) : String :=
  joinComma palette ++ ":" ++ toFixed2 shift

theorem comma_data : ("," : String).data = [','] := rfl

theorem colon_data : (":" : String).data = [':'] := rfl

theorem joinComma_cons₂ (a b : String) (t : List String) :
    joinComma (a :: b :: t) = a ++ "," ++ joinComma (b :: t) := rfl

theorem joinComma_data_cons₂ (a b : String) (t : List String) :
    (joinComma (a :: b :: t)).data = a.data ++ ',' :: (joinComma (b :: t)).data := by
  rw [joinComma_cons₂, String.data_append, String.data_append, comma_data,
    List.append_assoc, List.singleton_append]

theorem getFigletCacheKey_data (t f : String) :
    (getFigletCacheKey t f).data = t.data ++ ':' :: f.data := by
  unfold getFigletCacheKey
  rw [String.data_append, String.data_append, colon_data, List.append_assoc,
    List.singleton_append]

/-- C5 counterexample: the fingerprints are not injective over all string
inputs.  The figlet key of text `"a:b"` with font `"c"` equals the figlet
key of text `"a"` with font `"b:c"`, and the gradient key of the
one-colour palette `["a,b"]` equals that of the two-colour palette
`["a", "b"]`, although the parameter pairs differ — so two different
parameter sets can collide on one key. -/
theorem c5_counterexample :
    (getFigletCacheKey "a:b" "c" = getFigletCacheKey "a" "b:c"
      ∧ ("a:b", "c") ≠ (("a", "b:c") : String × String))
    ∧ (getGradientCacheKey ["a,b"] = getGradientCacheKey ["a", "b"]
      ∧ (["a,b"] : List String) ≠ ["a", "b"]) := by
  refine ⟨⟨rfl, ?_⟩, rfl, ?_⟩ <;> decide

theorem getFigletCacheKey_inj {t f t' f' : String}
    (ht : ':' ∉ t.data) (ht' : ':' ∉ t'.data)
    (h : getFigletCacheKey t f = getFigletCacheKey t' f') : t = t' ∧ f = f' := by
  have hd := congrArg String.data h
  rw [getFigletCacheKey_data, getFigletCacheKey_data] at hd
  have := append_marker_inj _ _ _ _ ht ht' hd
  exact ⟨String.ext this.1, String.ext this.2⟩

theorem joinComma_inj :
    ∀ (ps : List String), ps ≠ [] → (∀ s ∈ ps, ',' ∉ s.data) →
      ∀ (qs : List String), qs ≠ [] → (∀ s ∈ qs, ',' ∉ s.data) →
        joinComma ps = joinComma qs → ps = qs := by
  intro ps
  induction ps with
  | nil => intro h; exact absurd rfl h
  | cons s rest ih =>
      intro _ hps qs hqs0 hqs heq
      cases qs with
      | nil => exact absurd rfl hqs0
      | cons u urest =>
          cases rest with
          | nil =>
              cases urest with
              | nil =>
                  have : s = u := heq
                  rw [this]
              | cons u2 ur2 =>
                  exfalso
                  have hd := congrArg String.data heq
                  rw [joinComma_data_cons₂] at hd
                  apply hps s (List.mem_cons_self _ _)
                  show ',' ∈ (joinComma [s]).data
                  rw [hd]
                  exact List.mem_append_right _ (List.mem_cons_self _ _)
          | cons s2 sr2 =>
              cases urest with
              | nil =>
                  exfalso
                  have hd := congrArg String.data heq
                  rw [joinComma_data_cons₂] at hd
                  apply hqs u (List.mem_cons_self _ _)
                  show ',' ∈ (joinComma [u]).data
                  rw [← hd]
                  exact List.mem_append_right _ (List.mem_cons_self _ _)
              | cons u2 ur2 =>
                  have hd := congrArg String.data heq
                  rw [joinComma_data_cons₂, joinComma_data_cons₂] at hd
                  have hsplit := append_marker_inj _ _ _ _
                    (hps s (List.mem_cons_self _ _)) (hqs u (List.mem_cons_self _ _)) hd
                  have h1 : s = u := String.ext hsplit.1
                  have h2 : joinComma (s2 :: sr2) = joinComma (u2 :: ur2) :=
                    String.ext hsplit.2
                  have h3 := ih (List.cons_ne_nil _ _)
                    (fun x hx => hps x (List.mem_cons_of_mem _ hx))
                    (u2 :: ur2) (List.cons_ne_nil _ _)
                    (fun x hx => hqs x (List.mem_cons_of_mem _ hx)) h2
                  rw [h1, h3]

/-- C5 (amended) — Cache-key fingerprints are deterministic (equal
parameters give equal keys, since they are pure functions of their
arguments), and they are injective on the restricted domains the
counterexample leaves available: the figlet key separates any two
parameter pairs whose texts contain no `':'`, and the gradient key
separates any two non-empty palettes whose colour values contain no
`','`.  Over unrestricted strings the keys collide
(`c5_counterexample`), so the claim's "distinct parameters produce
distinct cache keys ... over all string inputs" had to be weakened. -/
theorem c5_fingerprints (t f t' f' : String) (ps qs : List String)
    (ht : ':' ∉ t.data) (ht' : ':' ∉ t'.data)
    (hps0 : ps ≠ []) (hqs0 : qs ≠ [])
    (hps : ∀ s ∈ ps, ',' ∉ s.data) (hqs : ∀ s ∈ qs, ',' ∉ s.data) :
    (t = t' → f = f' → getFigletCacheKey t f = getFigletCacheKey t' f')
    ∧ (getFigletCacheKey t f = getFigletCacheKey t' f' → t = t' ∧ f = f')
    ∧ (getGradientCacheKey ps = getGradientCacheKey qs → ps = qs) := by
  refine ⟨?_, ?_, ?_⟩
  · intro h1 h2; rw [h1, h2]
  · exact getFigletCacheKey_inj ht ht'
  · exact joinComma_inj ps hps0 hps qs hqs0 hqs

/-- Witness for C5 at concrete inputs. -/
theorem c5_fingerprints_witness :
    ((':' ∉ ("HELLO" : String).data) ∧ (':' ∉ ("WORLD" : String).data)
      ∧ ((["#ff0000", "#00ff00"] : List String) ≠ [])
      ∧ ((["#ff0000"] : List String) ≠ [])
      ∧ (∀ s ∈ (["#ff0000", "#00ff00"] : List String), ',' ∉ s.data)
      ∧ (∀ s ∈ (["#ff0000"] : List String), ',' ∉ s.data))
    ∧ ((getFigletCacheKey "HELLO" "Standard" = getFigletCacheKey "WORLD" "Standard"
          → "HELLO" = "WORLD" ∧ "Standard" = "Standard")
      ∧ (getGradientCacheKey ["#ff0000", "#00ff00"] = getGradientCacheKey ["#ff0000"]
          → ["#ff0000", "#00ff00"] = ["#ff0000"])) :=
  ⟨⟨by decide, by decide, by decide, by decide, by decide, by decide⟩,
    (c5_fingerprints "HELLO" "Standard" "WORLD" "Standard"
      ["#ff0000", "#00ff00"] ["#ff0000"] (by decide) (by decide) (by decide)
      (by decide) (by decide) (by decide)).2.1,
    (c5_fingerprints "HELLO" "Standard" "WORLD" "Standard"
      ["#ff0000", "#00ff00"] ["#ff0000"] (by decide) (by decide) (by decide)
      (by decide) (by decide) (by decide)).2.2⟩

/-! ## The AsciiCache variant (utils/cache.ts)

`AsciiCache` wraps the external `lru-cache` npm package and keeps its own
`hits`/`misses` counters.  The external store (not part of this
repository) is modelled from the spec, §6, as a bounded key-value store
with LRU recency — the same state shape as `LRUCache` above; its TTL
behaviour is wall-clock-based and irrelevant to the counter/stats claims
(no time passes inside a modelled operation sequence).  The keys are the
`JSON.stringify` fingerprints produced by `generateKey`. -/

/-- The `CacheKey` interface of utils/cache.ts. -/
structure FigletCacheKey where
  text : String
  font : String
  horizontalLayout : String
  verticalLayout : String
  width : Nat
  whitespaceBreak : Bool
deriving Repr, DecidableEq

def hexDigitChar (n : Nat) : Char :=
  if n < 10 then digitChar n
  else match n with
    | 10 => 'a'
    | 11 => 'b'
    | 12 => 'c'
    | 13 => 'd'
    | 14 => 'e'
    | _ => 'f'

/-- JSON string-character escaping as performed by `JSON.stringify`. -/
def jsonEscapeChar (c : Char) : List Char :=
  if c = '"' then ['\\', '"']
  else if c = '\\' then ['\\', '\\']
  else if c.toNat = 8 then ['\\', 'b']
  else if c.toNat = 9 then ['\\', 't']
  else if c.toNat = 10 then ['\\', 'n']
  else if c.toNat = 12 then ['\\', 'f']
  else if c.toNat = 13 then ['\\', 'r']
  else if c.toNat < 32 then
    ['\\', 'u', '0', '0', hexDigitChar (c.toNat / 16), hexDigitChar (c.toNat % 16)]
  else [c]

/-- A JSON string literal: quoted and escaped. -/
def jsonQuote (s : String) : String :=
  ⟨'"' :: (s.data.map jsonEscapeChar).flatten ++ ['"']⟩

/-- `AsciiCache.generateKey`: `JSON.stringify` of the key object, with
the property order fixed by the object literal in the source. -/
def generateKey (k : FigletCacheKey) : String :=
  "\x7b\"text\":" ++ jsonQuote k.text
    ++ ",\"font\":" ++ jsonQuote k.font
    ++ ",\"options\":\x7b\"horizontalLayout\":" ++ jsonQuote k.horizontalLayout
    ++ ",\"verticalLayout\":" ++ jsonQuote k.verticalLayout
    ++ ",\"width\":" ++ ⟨natDigits k.width⟩
    ++ ",\"whitespaceBreak\":" ++ (if k.whitespaceBreak then "true" else "false")
    ++ "\x7d\x7d"

structure AsciiCache where
  cache : LRUCache String
  hits : Nat
  misses : Nat
deriving Repr

def AsciiCache.empty (maxSize : Nat) : AsciiCache :=
  ⟨LRUCache.empty String maxSize, 0, 0⟩

/-- `AsciiCache.get`: exactly one of the two counters is incremented,
according to whether the store returned a value. -/
def AsciiCache.get (c : AsciiCache) (k : FigletCacheKey) :
    Option String × AsciiCache :=
  let r := c.cache.get (generateKey k)
  match r.1 with
  | some v => (some v, { c with cache := r.2, hits := c.hits + 1 })
  | none => (none, { c with cache := r.2, misses := c.misses + 1 })

/-- `AsciiCache.set`: stores the value; touches no counter. -/
def AsciiCache.set (c : AsciiCache) (k : FigletCacheKey) (v : String) : AsciiCache :=
  { c with cache := c.cache.set (generateKey k) v }

/-- `AsciiCache.has`: pure query; touches no counter. -/
def AsciiCache.has (c : AsciiCache) (k : FigletCacheKey) : Bool :=
  c.cache.has (generateKey k)

/-- `AsciiCache.delete`: removes the entry; touches no counter. -/
def AsciiCache.delete (c : AsciiCache) (k : FigletCacheKey) : Bool × AsciiCache :=
  let r := c.cache.delete (generateKey k)
  (r.1, { c with cache := r.2 })

/-- `AsciiCache.clear`: clears the store and resets both counters. -/
def AsciiCache.clear (c : AsciiCache) : AsciiCache :=
  ⟨c.cache.clear, 0, 0⟩

structure AsciiCacheStats where
  hits : Nat
  misses : Nat
  size : Nat
  maxSize : Nat
  hitRate : ℚ
deriving Repr

/-- `AsciiCache.getStats`: note the `* 100` — this variant reports the
hit rate as a percentage. -/
def AsciiCache.getStats (c : AsciiCache) : AsciiCacheStats :=
  { hits := c.hits
    misses := c.misses
    size := c.cache.entries.length
    maxSize := c.cache.maxSize
    hitRate :=
      if 0 < c.hits + c.misses then
        ((c.hits : ℚ) / ((c.hits : ℚ) + (c.misses : ℚ))) * 100
      else 0 }

/-! ## C6: hit/miss accounting over operation sequences -/

/-- The cache operations named by the claim. -/
inductive CacheOp (T : Type) where
  | get (k : String)
  | set (k : String) (v : T)
  | has (k : String)
  | delete (k : String)
  | clear
deriving DecidableEq

def applyOp {T : Type} (c : LRUCache T) : CacheOp T → LRUCache T
  | .get k => (c.get k).2
  | .set k v => c.set k v
  | .has _ => c
  | .delete k => (c.delete k).2
  | .clear => c.clear

def runOps {T : Type} (c : LRUCache T) (ops : List (CacheOp T)) : LRUCache T :=
  ops.foldl applyOp c

def isGetOp {T : Type} : CacheOp T → Bool
  | .get _ => true
  | _ => false

def countGets {T : Type} (ops : List (CacheOp T)) : Nat :=
  (ops.filter isGetOp).length

inductive AsciiOp where
  | get (k : FigletCacheKey)
  | set (k : FigletCacheKey) (v : String)
  | has (k : FigletCacheKey)
  | delete (k : FigletCacheKey)
  | clear
deriving DecidableEq

def asciiApplyOp (c : AsciiCache) : AsciiOp → AsciiCache
  | .get k => (c.get k).2
  | .set k v => c.set k v
  | .has _ => c
  | .delete k => (c.delete k).2
  | .clear => c.clear

def asciiRunOps (c : AsciiCache) (ops : List AsciiOp) : AsciiCache :=
  ops.foldl asciiApplyOp c

def isAsciiGetOp : AsciiOp → Bool
  | .get _ => true
  | _ => false

def asciiCountGets (ops : List AsciiOp) : Nat :=
  (ops.filter isAsciiGetOp).length

theorem get_counts {T : Type} (c : LRUCache T) (k : String) :
    (c.get k).2.hits + (c.get k).2.misses = c.hits + c.misses + 1 := by
  unfold LRUCache.get
  cases List.lookup k c.entries <;> simp <;> omega

theorem set_counts {T : Type} (c : LRUCache T) (k : String) (v : T) :
    (c.set k v).hits = c.hits ∧ (c.set k v).misses = c.misses := by
  unfold LRUCache.set
  cases List.lookup k c.entries <;> exact ⟨rfl, rfl⟩

theorem delete_counts {T : Type} (c : LRUCache T) (k : String) :
    (c.delete k).2.hits = c.hits ∧ (c.delete k).2.misses = c.misses := by
  unfold LRUCache.delete
  cases List.lookup k c.entries <;> exact ⟨rfl, rfl⟩

theorem runOps_counts {T : Type} :
    ∀ (ops : List (CacheOp T)) (c : LRUCache T),
      (∀ op ∈ ops, op ≠ CacheOp.clear) →
      (runOps c ops).hits + (runOps c ops).misses = c.hits + c.misses + countGets ops := by
  intro ops
  induction ops with
  | nil => intro c _; simp [runOps, countGets]
  | cons op rest ih =>
      intro c hnc
      have hstep : runOps c (op :: rest) = runOps (applyOp c op) rest := rfl
      rw [hstep]
      have hrest := ih (applyOp c op) (fun o ho => hnc o (List.mem_cons_of_mem _ ho))
      rw [hrest]
      cases op with
      | get k =>
          have := get_counts c k
          simp only [applyOp] at *
          simp [countGets, List.filter, isGetOp]
          omega
      | set k v =>
          have := set_counts c k v
          simp only [applyOp] at *
          simp [countGets, List.filter, isGetOp]
          omega
      | has k =>
          simp only [applyOp]
          simp [countGets, List.filter, isGetOp]
      | delete k =>
          have := delete_counts c k
          simp only [applyOp] at *
          simp [countGets, List.filter, isGetOp]
          omega
      | clear => exact absurd rfl (hnc _ (List.mem_cons_self _ _))

theorem ascii_get_counts (c : AsciiCache) (k : FigletCacheKey) :
    (c.get k).2.hits + (c.get k).2.misses = c.hits + c.misses + 1 := by
  unfold AsciiCache.get
  cases h : (c.cache.get (generateKey k)).1 <;> simp [h] <;> omega

theorem asciiRunOps_counts :
    ∀ (ops : List AsciiOp) (c : AsciiCache),
      (∀ op ∈ ops, op ≠ AsciiOp.clear) →
      (asciiRunOps c ops).hits + (asciiRunOps c ops).misses
        = c.hits + c.misses + asciiCountGets ops := by
  intro ops
  induction ops with
  | nil => intro c _; simp [asciiRunOps, asciiCountGets]
  | cons op rest ih =>
      intro c hnc
      have hstep : asciiRunOps c (op :: rest) = asciiRunOps (asciiApplyOp c op) rest := rfl
      rw [hstep]
      have hrest := ih (asciiApplyOp c op) (fun o ho => hnc o (List.mem_cons_of_mem _ ho))
      rw [hrest]
      cases op with
      | get k =>
          have := ascii_get_counts c k
          simp only [asciiApplyOp] at *
          simp [asciiCountGets, List.filter, isAsciiGetOp]
          omega
      | set k v =>
          simp only [asciiApplyOp, AsciiCache.set]
          simp [asciiCountGets, List.filter, isAsciiGetOp]
      | has k =>
          simp only [asciiApplyOp]
          simp [asciiCountGets, List.filter, isAsciiGetOp]
      | delete k =>
          simp only [asciiApplyOp, AsciiCache.delete]
          simp [asciiCountGets, List.filter, isAsciiGetOp]
      | clear => exact absurd rfl (hnc _ (List.mem_cons_self _ _))

theorem getStats_hitRate_eq {T : Type} (c : LRUCache T) (g : Nat)
    (h : c.hits + c.misses = g) :
    (g = 0 → c.getStats.hitRate = 0)
    ∧ (0 < g → c.getStats.hitRate = (c.hits : ℚ) / (g : ℚ)) := by
  constructor
  · intro h0
    simp only [LRUCache.getStats]
    rw [h, h0]
    norm_num
  · intro hpos
    simp only [LRUCache.getStats]
    rw [h, if_pos hpos]
    have hcast : ((c.hits : ℚ) + (c.misses : ℚ)) = (g : ℚ) := by
      exact_mod_cast congrArg (fun x : ℕ => (x : ℚ)) h
    rw [hcast]

theorem asciiGetStats_hitRate_eq (c : AsciiCache) (g : Nat)
    (h : c.hits + c.misses = g) :
    (g = 0 → c.getStats.hitRate = 0)
    ∧ (0 < g → c.getStats.hitRate = ((c.hits : ℚ) / (g : ℚ)) * 100) := by
  constructor
  · intro h0
    simp only [AsciiCache.getStats]
    rw [h, h0]
    norm_num
  · intro hpos
    simp only [AsciiCache.getStats]
    rw [h, if_pos hpos]
    have hcast : ((c.hits : ℚ) + (c.misses : ℚ)) = (g : ℚ) := by
      exact_mod_cast congrArg (fun x : ℕ => (x : ℚ)) h
    rw [hcast]

/-- C6 counterexample: the claim's `hitRate = hits/(hits+misses)` is
false for `AsciiCache.getStats`, which multiplies the ratio by 100.
After one `set` and one (hitting) `get` on a fresh `AsciiCache`,
`hits = 1`, `misses = 0`, and the reported `hitRate` is `100`,
not `1 = hits/(hits+misses)`. -/
theorem c6_counterexample :
    ((((AsciiCache.empty 10).set ⟨"a", "b", "c", "d", 1, true⟩ "art").get
        ⟨"a", "b", "c", "d", 1, true⟩).2.hits = 1)
    ∧ ((((AsciiCache.empty 10).set ⟨"a", "b", "c", "d", 1, true⟩ "art").get
        ⟨"a", "b", "c", "d", 1, true⟩).2.misses = 0)
    ∧ ((((AsciiCache.empty 10).set ⟨"a", "b", "c", "d", 1, true⟩ "art").get
        ⟨"a", "b", "c", "d", 1, true⟩).2.getStats.hitRate = 100)
    ∧ ((((AsciiCache.empty 10).set ⟨"a", "b", "c", "d", 1, true⟩ "art").get
        ⟨"a", "b", "c", "d", 1, true⟩).2.getStats.hitRate ≠ (1 : ℚ) / (1 + 0)) := by
  have h1 : ((((AsciiCache.empty 10).set ⟨"a", "b", "c", "d", 1, true⟩ "art").get
      ⟨"a", "b", "c", "d", 1, true⟩).2.hits = 1) := by decide
  have h2 : ((((AsciiCache.empty 10).set ⟨"a", "b", "c", "d", 1, true⟩ "art").get
      ⟨"a", "b", "c", "d", 1, true⟩).2.misses = 0) := by decide
  refine ⟨h1, h2, ?_, ?_⟩
  · simp only [AsciiCache.getStats]
    rw [h1, h2]
    norm_num
  · simp only [AsciiCache.getStats]
    rw [h1, h2]
    norm_num

/-- C6 (amended) — Hit-rate accounting.  For any sequence of operations
containing no `clear`, run on a fresh cache: `hits + misses` equals the
number of `get` calls (each `get` increments exactly one of the two
counters; `set`, `has` and `delete` increment neither).
`LRUCache.getStats` reports `hitRate = hits/(hits+misses)` (as a
fraction) and `0` when no `get` has been called; `AsciiCache.getStats`
reports the same ratio *as a percentage* (`× 100`) — the claim's plain
`hits/(hits+misses)` holds only for the `LRUCache` variant
(see `c6_counterexample`). -/
theorem c6_hit_rate_accounting {T : Type} (n m : Nat)
    (ops : List (CacheOp T)) (aops : List AsciiOp)
    (hnc : ∀ op ∈ ops, op ≠ CacheOp.clear)
    (hnca : ∀ op ∈ aops, op ≠ AsciiOp.clear) :
    ((runOps (LRUCache.empty T n) ops).hits
        + (runOps (LRUCache.empty T n) ops).misses = countGets ops)
    ∧ (countGets ops = 0 → (runOps (LRUCache.empty T n) ops).getStats.hitRate = 0)
    ∧ (0 < countGets ops →
        (runOps (LRUCache.empty T n) ops).getStats.hitRate
          = ((runOps (LRUCache.empty T n) ops).hits : ℚ) / (countGets ops : ℚ))
    ∧ ((asciiRunOps (AsciiCache.empty m) aops).hits
        + (asciiRunOps (AsciiCache.empty m) aops).misses = asciiCountGets aops)
    ∧ (asciiCountGets aops = 0 →
        (asciiRunOps (AsciiCache.empty m) aops).getStats.hitRate = 0)
    ∧ (0 < asciiCountGets aops →
        (asciiRunOps (AsciiCache.empty m) aops).getStats.hitRate
          = (((asciiRunOps (AsciiCache.empty m) aops).hits : ℚ)
              / (asciiCountGets aops : ℚ)) * 100) := by
  have hc : (runOps (LRUCache.empty T n) ops).hits
      + (runOps (LRUCache.empty T n) ops).misses = countGets ops := by
    have := runOps_counts ops (LRUCache.empty T n) hnc
    simpa [LRUCache.empty] using this
  have ha : (asciiRunOps (AsciiCache.empty m) aops).hits
      + (asciiRunOps (AsciiCache.empty m) aops).misses = asciiCountGets aops := by
    have := asciiRunOps_counts aops (AsciiCache.empty m) hnca
    simpa [AsciiCache.empty] using this
  have h1 := getStats_hitRate_eq (runOps (LRUCache.empty T n) ops) (countGets ops) hc
  have h2 := asciiGetStats_hitRate_eq (asciiRunOps (AsciiCache.empty m) aops)
    (asciiCountGets aops) ha
  exact ⟨hc, h1.1, h1.2, ha, h2.1, h2.2⟩

/-- Witness for C6 at a concrete operation sequence: one hit and one miss
out of two `get` calls, `hitRate = 1/2` (and `50` for the percentage
variant). -/
theorem c6_hit_rate_accounting_witness :
    ((∀ op ∈ ([CacheOp.set "a" 1, CacheOp.get "a", CacheOp.get "b",
        CacheOp.has "a", CacheOp.delete "a"] : List (CacheOp Nat)),
          op ≠ CacheOp.clear)
      ∧ (∀ op ∈ ([AsciiOp.set ⟨"a", "b", "c", "d", 1, true⟩ "art",
          AsciiOp.get ⟨"a", "b", "c", "d", 1, true⟩,
          AsciiOp.get ⟨"x", "b", "c", "d", 1, true⟩] : List AsciiOp),
            op ≠ AsciiOp.clear))
    ∧ ((runOps (LRUCache.empty Nat 5) [CacheOp.set "a" 1, CacheOp.get "a",
          CacheOp.get "b", CacheOp.has "a", CacheOp.delete "a"]).hits
        + (runOps (LRUCache.empty Nat 5) [CacheOp.set "a" 1, CacheOp.get "a",
          CacheOp.get "b", CacheOp.has "a", CacheOp.delete "a"]).misses
        = countGets [CacheOp.set "a" 1, CacheOp.get "a", CacheOp.get "b",
          CacheOp.has "a", CacheOp.delete "a"])
    ∧ (0 < countGets ([CacheOp.set "a" 1, CacheOp.get "a", CacheOp.get "b",
          CacheOp.has "a", CacheOp.delete "a"] : List (CacheOp Nat)) →
        (runOps (LRUCache.empty Nat 5) [CacheOp.set "a" 1, CacheOp.get "a",
          CacheOp.get "b", CacheOp.has "a", CacheOp.delete "a"]).getStats.hitRate
          = ((runOps (LRUCache.empty Nat 5) [CacheOp.set "a" 1, CacheOp.get "a",
            CacheOp.get "b", CacheOp.has "a", CacheOp.delete "a"]).hits : ℚ)
            / (countGets ([CacheOp.set "a" 1, CacheOp.get "a", CacheOp.get "b",
              CacheOp.has "a", CacheOp.delete "a"] : List (CacheOp Nat)) : ℚ)) :=
  ⟨⟨by decide, by decide⟩,
    (c6_hit_rate_accounting 5 10
      [CacheOp.set "a" 1, CacheOp.get "a", CacheOp.get "b",
        CacheOp.has "a", CacheOp.delete "a"]
      [AsciiOp.set ⟨"a", "b", "c", "d", 1, true⟩ "art",
        AsciiOp.get ⟨"a", "b", "c", "d", 1, true⟩,
        AsciiOp.get ⟨"x", "b", "c", "d", 1, true⟩]
      (by decide) (by decide)).1,
    (c6_hit_rate_accounting 5 10
      [CacheOp.set "a" 1, CacheOp.get "a", CacheOp.get "b",
        CacheOp.has "a", CacheOp.delete "a"]
      [AsciiOp.set ⟨"a", "b", "c", "d", 1, true⟩ "art",
        AsciiOp.get ⟨"a", "b", "c", "d", 1, true⟩,
        AsciiOp.get ⟨"x", "b", "c", "d", 1, true⟩]
      (by decide) (by decide)).2.2.1⟩

/-! ## The gradient coloring engine (renderer.ts)

The external gradient-string library is opaque: `gradient(palette)`
returns a callable that colors a single line and has a `.multiline`
method.  We model such a value as a pair of functions and take the
builder `gradientBuild` as a parameter of the engine. -/

structure GradFn where
  applyLine : String → String
  multiline : String → String

instance : Inhabited GradFn := ⟨⟨id, id⟩⟩

/-- JavaScript `str.split('\n')` at the character level: splitting at
every newline, so that `"" ↦ [""]`, `"a\n" ↦ ["a", ""]`. -/
def splitLinesData : List Char → List (List Char)
  | [] => [[]]
  | c :: rest =>
      match splitLinesData rest with
      | [] => [[]]
      | l :: ls => if c = '\n' then [] :: l :: ls else (c :: l) :: ls

/-- JavaScript `str.split('\n')`. -/
def splitLines (s : String) : List String :=
  (splitLinesData s.data).map fun l => ⟨l⟩

/-- JavaScript `lines.join('\n')`. -/
def joinLines : List String → String
  | [] => ""
  | [s] => s
  | s :: rest => s ++ "\n" ++ joinLines rest

/-- `line.trim() === ''` — the blank-line test of both strategies: the
trimmed string is empty exactly when every character is whitespace.
(JS `trim` strips a slightly larger Unicode whitespace set than
`Char.isWhitespace`; the difference is immaterial for character art.) -/
def isBlank (s : String) : Bool := s.data.all Char.isWhitespace

/-- The shifted palette of `processDiagonalGradient`:
`palette.map((_, j) => palette[Math.floor(j + shift) % palette.length])`.
The JS callback ignores the element and uses only the index, so this is
a map over the index range.  All reachable indices are non-negative, so
`Math.floor` is `Int.floor` followed by `toNat`, and JS `%` is `Nat`
mod. -/
def shiftedPalette (palette : List String) (shift : ℚ) : List String :=
  (List.range palette.length).map fun (j : ℕ) =>
    palette.getD ((Int.floor ((j : ℚ) + shift)).toNat % palette.length) ""

/-- The loop body of `processDiagonalGradient`: walk the lines with their
index, pass blank lines through, and for each non-blank line fetch or
build (and cache) the gradient for this line's shifted palette, keyed by
`getDiagonalCacheKey(palette, shift)`. -/
def diagGo (gradientBuild : List String → GradFn) (palette : List String)
    (lineCount : Nat) :
    Nat → List String → LRUCache GradFn → List String × LRUCache GradFn
  | _, [], gc => ([], gc)
  | i, line :: rest, gc =>
      if isBlank line then
        let r := diagGo gradientBuild palette lineCount (i + 1) rest gc
        (line :: r.1, r.2)
      else
        let shift : ℚ := ((i : ℚ) / (lineCount : ℚ)) * (palette.length : ℚ)
        let key := getDiagonalCacheKey palette shift
        let g := gc.get key
        match g.1 with
        | some lineGradient =>
            let r := diagGo gradientBuild palette lineCount (i + 1) rest g.2
            (lineGradient.applyLine line :: r.1, r.2)
        | none =>
            let lineGradient := gradientBuild (shiftedPalette palette shift)
            let gc2 := g.2.set key lineGradient
            let r := diagGo gradientBuild palette lineCount (i + 1) rest gc2
            (lineGradient.applyLine line :: r.1, r.2)

/-- `processDiagonalGradient(asciiArt, palette)`, threading the shared
gradient cache explicitly. -/
def processDiagonalGradient (gradientBuild : List String → GradFn)
    (gc : LRUCache GradFn) (asciiArt : String) (palette : List String) :
    String × LRUCache GradFn :=
  let lines := splitLines asciiArt
  let r := diagGo gradientBuild palette lines.length 0 lines gc
  (joinLines r.1, r.2)

/-- `processHorizontalGradient(asciiArt, gradientFn)`: each non-blank
line gets the full ramp; blank lines pass through. -/
def processHorizontalGradient (gradientFn : GradFn) (asciiArt : String) : String :=
  joinLines ((splitLines asciiArt).map fun line =>
    if isBlank line then line else gradientFn.applyLine line)

/-! ## The render facade (renderer.ts renderLogo)

State of the module-global `cacheManager` as used by `renderLogo`:
the figlet cache (maxSize 500) and the gradient cache (maxSize 200). -/

structure RenderState where
  figletCache : LRUCache String
  gradientCache : LRUCache GradFn

/-- The `CacheManager` constructor configuration:
`figletCacheSize: 500, gradientCacheSize: 200`. -/
def RenderState.initial : RenderState :=
  ⟨LRUCache.empty String 500, LRUCache.empty GradFn 200⟩

/-- `clearRenderCache()`: clears both caches. -/
def clearRenderCache (st : RenderState) : RenderState :=
  ⟨st.figletCache.clear, st.gradientCache.clear⟩

/-- The figlet block of `renderLogo`: check the figlet cache, on a miss
generate the art and store it.  Note the JavaScript truthiness test
`if (!asciiArt)`: a *cached empty string* is treated as a miss and
regenerated. -/
def figletStep (figlet : String → String → String) (fc : LRUCache String)
    (text font : String) : String × LRUCache String :=
  let figletKey := getFigletCacheKey text font
  let fres := fc.get figletKey
  match fres.1 with
  | some a =>
      if a = "" then
        let a2 := figlet text font
        (a2, fres.2.set figletKey a2)
      else (a, fres.2)
  | none =>
      let a2 := figlet text font
      (a2, fres.2.set figletKey a2)

/-- The gradient block of `renderLogo`: check the gradient cache for the
whole-palette gradient, on a miss build and store it. -/
def gradientStep (gradientBuild : List String → GradFn) (gc : LRUCache GradFn)
    (palette : List String) : GradFn × LRUCache GradFn :=
  let gradientKey := getGradientCacheKey palette
  let gres := gc.get gradientKey
  match gres.1 with
  | some g => (g, gres.2)
  | none =>
      let g := gradientBuild palette
      (g, gres.2.set gradientKey g)

/-- `renderLogo(text, palette, font, direction)`.  The figlet generator
and the gradient builder are opaque external collaborators, passed as
parameters.  The `switch` sends unknown directions to the `default:`
(vertical) arm.  The `try/catch` re-wrapping of font errors is not
modelled: the external collaborators are total functions here, so no
exception is raised. -/
def renderLogo (figlet : String → String → String)
    (gradientBuild : List String → GradFn) (st : RenderState)
    (text : String) (palette : List String)
    (font : String := "Standard") (direction : String := "vertical") :
    String × RenderState :=
  let fr := figletStep figlet st.figletCache text font
  let gr := gradientStep gradientBuild st.gradientCache palette
  if direction = "horizontal" then
    (processHorizontalGradient gr.1 fr.1, ⟨fr.2, gr.2⟩)
  else if direction = "diagonal" then
    let r := processDiagonalGradient gradientBuild gr.2 fr.1 palette
    (r.1, ⟨fr.2, r.2⟩)
  else
    (gr.1.multiline fr.1, ⟨fr.2, gr.2⟩)

/-! ## Characterising the diagonal strategy

The per-line gradient of `processDiagonalGradient` is cached under
`palette.join(',') + ':' + shift.toFixed(2)`, i.e. the key depends on the
shift only through `round (shift * 100)` (its "bucket").  The helper
definitions below name the shift, the bucket, and the oracle value that a
key can hold: the gradient built for the *first* non-blank line whose
shift falls in that bucket. -/

/-- `const shift = (index / lineCount) * palette.length` (exact). -/
def lineShift (p : List String) (n i : Nat) : ℚ :=
  ((i : ℚ) / (n : ℚ)) * (p.length : ℚ)

/-- The hundredth-bucket a shift is rounded into by `toFixed(2)`. -/
def bucket (p : List String) (n i : Nat) : ℤ :=
  round (lineShift p n i * 100)

def blankAt (ls : List String) (i : Nat) : Bool := isBlank (ls.getD i "")

/-- Scan indices `s, s+1, …` (with fuel) for the first satisfying the
predicate. -/
def findFrom (pred : Nat → Bool) : Nat → Nat → Option Nat
  | _, 0 => none
  | s, fuel + 1 => if pred s then some s else findFrom pred (s + 1) fuel

def bucketPred (p ls : List String) (m : ℤ) (i : Nat) : Bool :=
  !(blankAt ls i) && decide (bucket p ls.length i = m)

/-- The first non-blank line index whose shift rounds into bucket `m`. -/
def firstIdx (p ls : List String) (m : ℤ) : Option Nat :=
  findFrom (bucketPred p ls m) 0 ls.length

/-- The gradient a bucket's cache key holds after it is first written:
the gradient of the first non-blank line of that bucket. -/
def oracleV (gb : List String → GradFn) (p ls : List String) (m : ℤ) : GradFn :=
  match firstIdx p ls m with
  | some i => gb (shiftedPalette p (lineShift p ls.length i))
  | none => default

theorem lineShift_nonneg (p : List String) (n i : Nat) : 0 ≤ lineShift p n i := by
  unfold lineShift
  positivity

theorem round_mono_rat {a b : ℚ} (h : a ≤ b) : round a ≤ round b := by
  rw [round_eq, round_eq]
  exact Int.floor_mono (by linarith)

theorem bucket_mono {p : List String} {n i j : Nat} (h : i ≤ j) :
    bucket p n i ≤ bucket p n j := by
  unfold bucket
  apply round_mono_rat
  unfold lineShift
  have hij : (i : ℚ) ≤ (j : ℚ) := by exact_mod_cast h
  have hL : (0 : ℚ) ≤ (p.length : ℚ) := by positivity
  have h1 : ((i : ℚ) / (n : ℚ)) ≤ ((j : ℚ) / (n : ℚ)) := by gcongr
  have h2 := mul_le_mul_of_nonneg_right h1 hL
  exact mul_le_mul_of_nonneg_right h2 (by norm_num)

theorem toFixed2_congr {q q' : ℚ} (h : round (q * 100) = round (q' * 100)) :
    toFixed2 q = toFixed2 q' := by
  unfold toFixed2
  rw [h]

theorem string_append_cancel_left {a b c : String} (h : a ++ b = a ++ c) : b = c := by
  have hd := congrArg String.data h
  rw [String.data_append, String.data_append] at hd
  exact String.ext (List.append_cancel_left hd)

/-- Two diagonal cache keys for the same palette agree exactly when the
shifts round into the same hundredth-bucket. -/
theorem dKey_congr {p : List String} {q q' : ℚ}
    (h : round (q * 100) = round (q' * 100)) :
    getDiagonalCacheKey p q = getDiagonalCacheKey p q' := by
  unfold getDiagonalCacheKey
  rw [toFixed2_congr h]

theorem dKey_inj {p : List String} {q q' : ℚ} (hq : 0 ≤ q) (hq' : 0 ≤ q')
    (h : getDiagonalCacheKey p q = getDiagonalCacheKey p q') :
    round (q * 100) = round (q' * 100) := by
  unfold getDiagonalCacheKey at h
  rw [String.append_assoc, String.append_assoc] at h
  have h2 := string_append_cancel_left h
  have h3 := string_append_cancel_left h2
  exact toFixed2_inj_nonneg hq hq' h3

theorem mem_of_lookup_eq_some {T : Type} {k : String} {v : T} :
    ∀ {l : List (String × T)}, List.lookup k l = some v → (k, v) ∈ l := by
  intro l
  induction l with
  | nil => intro h; simp [List.lookup] at h
  | cons a rest ih =>
      rcases a with ⟨k', v'⟩
      intro h
      by_cases he : k = k'
      · subst he
        rw [lookup_cons_self] at h
        rw [Option.some.injEq] at h
        rw [← h]
        exact List.mem_cons_self _ _
      · rw [lookup_cons_ne v' rest he] at h
        exact List.mem_cons_of_mem _ (ih h)

theorem findFrom_eq_some {pred : Nat → Bool} :
    ∀ (fuel s i : Nat), s ≤ i → i < s + fuel → pred i = true →
      (∀ j, s ≤ j → j < i → pred j = false) →
      findFrom pred s fuel = some i := by
  intro fuel
  induction fuel with
  | zero => intro s i h1 h2 _ _; omega
  | succ fuel ih =>
      intro s i h1 h2 hp hmin
      by_cases hs : pred s
      · have : s = i := by
          by_contra hne
          have hlt : s < i := lt_of_le_of_ne h1 hne
          rw [hmin s le_rfl hlt] at hs
          exact Bool.noConfusion hs
        rw [findFrom, if_pos hs, this]
      · rw [findFrom, if_neg hs]
        have hsi : s ≠ i := by
          intro he
          rw [he] at hs
          exact hs hp
        exact ih (s + 1) i (by omega) (by omega) hp
          (fun j hj1 hj2 => hmin j (by omega) hj2)

theorem drop_cons_spec {α : Type} [Inhabited α] :
    ∀ (ls : List α) (s : Nat) (line : α) (rest : List α),
      ls.drop s = line :: rest →
      ls.getD s default = line ∧ ls.drop (s + 1) = rest ∧ s < ls.length := by
  intro ls
  induction ls with
  | nil => intro s line rest h; simp at h
  | cons a t ih =>
      intro s line rest h
      cases s with
      | zero =>
          rw [List.drop_zero] at h
          rw [List.cons.injEq] at h
          refine ⟨h.1, ?_, by simp⟩
          show t.drop 0 = rest
          rw [List.drop_zero, h.2]
      | succ s =>
          have h' : t.drop s = line :: rest := h
          have := ih s line rest h'
          refine ⟨this.1, this.2.1, by simp; omega⟩

/-- The property an entry of the shared gradient cache must satisfy for
the diagonal strategy to be predictable: if its key is the diagonal key
of some non-blank line, its value is that bucket's oracle gradient. -/
def entryOK (gb : List String → GradFn) (p ls : List String)
    (kg : String × GradFn) : Prop :=
  ∀ i, i < ls.length → blankAt ls i = false →
    kg.1 = getDiagonalCacheKey p (lineShift p ls.length i) →
    kg.2 = oracleV gb p ls (bucket p ls.length i)

/-- Between the last processed non-blank line and the current position
the cache still holds that line's key with its oracle value. -/
def lastOK (gb : List String → GradFn) (p ls : List String) (s : Nat)
    (gc : LRUCache GradFn) : Prop :=
  ∀ i', i' < s → blankAt ls i' = false →
    (∀ j, i' < j → j < s → blankAt ls j = true) →
    List.lookup (getDiagonalCacheKey p (lineShift p ls.length i')) gc.entries
      = some (oracleV gb p ls (bucket p ls.length i'))

theorem oracle_congr (gb : List String → GradFn) (p ls : List String)
    {i j : Nat} (h : bucket p ls.length i = bucket p ls.length j) :
    oracleV gb p ls (bucket p ls.length i) = oracleV gb p ls (bucket p ls.length j) := by
  rw [h]

/-- An oracle pair always satisfies `entryOK`: keys equal forces buckets
equal forces oracle values equal. -/
theorem entryOK_oracle_pair (gb : List String → GradFn) (p ls : List String)
    (i : Nat) :
    entryOK gb p ls
      (getDiagonalCacheKey p (lineShift p ls.length i),
        oracleV gb p ls (bucket p ls.length i)) := by
  intro i₂ _ _ hk
  simp only at hk ⊢
  have hb : round (lineShift p ls.length i * 100) = round (lineShift p ls.length i₂ * 100) :=
    dKey_inj (lineShift_nonneg p ls.length i) (lineShift_nonneg p ls.length i₂) hk
  show oracleV gb p ls (bucket p ls.length i) = oracleV gb p ls (bucket p ls.length i₂)
  unfold bucket
  rw [hb]

theorem get_fst {T : Type} (c : LRUCache T) (k : String) :
    (c.get k).1 = List.lookup k c.entries := by
  unfold LRUCache.get
  cases List.lookup k c.entries <;> rfl

theorem get_entries_hit {T : Type} {c : LRUCache T} {k : String} {v : T}
    (h : List.lookup k c.entries = some v) :
    (c.get k).2.entries = (k, v) :: removeKey k c.entries := by
  unfold LRUCache.get
  rw [h]

theorem get_entries_miss {T : Type} {c : LRUCache T} {k : String}
    (h : List.lookup k c.entries = none) :
    (c.get k).2.entries = c.entries := by
  unfold LRUCache.get
  rw [h]

theorem set_entries_sub {T : Type} (c : LRUCache T) (k : String) (v : T) :
    ∀ kg ∈ (c.set k v).entries, kg = (k, v) ∨ kg ∈ c.entries := by
  unfold LRUCache.set
  cases hl : List.lookup k c.entries with
  | some w =>
      intro kg hkg
      simp only at hkg
      rcases List.mem_cons.mp hkg with h | h
      · exact Or.inl h
      · exact Or.inr (removeKey_subset _ _ _ h)
  | none =>
      intro kg hkg
      simp only at hkg
      by_cases hsz : c.maxSize < ((k, v) :: c.entries).length
      · rw [if_pos hsz] at hkg
        have := dropLast_subset _ _ hkg
        rcases List.mem_cons.mp this with h | h
        · exact Or.inl h
        · exact Or.inr h
      · rw [if_neg hsz] at hkg
        rcases List.mem_cons.mp hkg with h | h
        · exact Or.inl h
        · exact Or.inr h

theorem diagGo_nil (gb : List String → GradFn) (p : List String) (n s : Nat)
    (gc : LRUCache GradFn) : diagGo gb p n s [] gc = ([], gc) := rfl

theorem diagGo_cons_blank (gb : List String → GradFn) (p : List String)
    (n s : Nat) (line : String) (rest : List String) (gc : LRUCache GradFn)
    (hb : isBlank line = true) :
    diagGo gb p n s (line :: rest) gc =
      (line :: (diagGo gb p n (s + 1) rest gc).1,
        (diagGo gb p n (s + 1) rest gc).2) := by
  simp [diagGo, hb]

theorem diagGo_cons_hit (gb : List String → GradFn) (p : List String)
    (n s : Nat) (line : String) (rest : List String) (gc : LRUCache GradFn)
    (gval : GradFn) (hb : isBlank line = false)
    (hlook : List.lookup
        (getDiagonalCacheKey p (lineShift p n s))
        gc.entries = some gval) :
    diagGo gb p n s (line :: rest) gc =
      (gval.applyLine line ::
          (diagGo gb p n (s + 1) rest
            ((gc.get (getDiagonalCacheKey p
              (lineShift p n s))).2)).1,
        (diagGo gb p n (s + 1) rest
          ((gc.get (getDiagonalCacheKey p
            (lineShift p n s))).2)).2) := by
  have hfst : (gc.get (getDiagonalCacheKey p
      (((s : ℚ) / (n : ℚ)) * (p.length : ℚ)))).1 = some gval := by
    rw [get_fst]
    exact hlook
  simp [diagGo, hb, hfst, lineShift]

theorem diagGo_cons_miss (gb : List String → GradFn) (p : List String)
    (n s : Nat) (line : String) (rest : List String) (gc : LRUCache GradFn)
    (hb : isBlank line = false)
    (hlook : List.lookup
        (getDiagonalCacheKey p (lineShift p n s))
        gc.entries = none) :
    diagGo gb p n s (line :: rest) gc =
      ((gb (shiftedPalette p (lineShift p n s))).applyLine line ::
          (diagGo gb p n (s + 1) rest
            (((gc.get (getDiagonalCacheKey p
                (lineShift p n s))).2).set
              (getDiagonalCacheKey p (lineShift p n s))
              (gb (shiftedPalette p (lineShift p n s))))).1,
        (diagGo gb p n (s + 1) rest
          (((gc.get (getDiagonalCacheKey p
              (lineShift p n s))).2).set
            (getDiagonalCacheKey p (lineShift p n s))
            (gb (shiftedPalette p (lineShift p n s))))).2) := by
  have hfst : (gc.get (getDiagonalCacheKey p
      (((s : ℚ) / (n : ℚ)) * (p.length : ℚ)))).1 = none := by
    rw [get_fst]
    exact hlook
  simp [diagGo, hb, hfst, lineShift]

/-- Central characterisation of the diagonal strategy's loop: starting at
line `s` with a cache whose entries all satisfy `entryOK` (and whose most
recent non-blank line's key is still present, `lastOK`), every non-blank
line `i` is colored with its bucket's oracle gradient, blank lines pass
through, and the final cache again contains only old entries and oracle
pairs. -/
theorem diagGo_spec (gb : List String → GradFn) (p ls : List String) :
    ∀ (rest : List String) (s : Nat) (gc : LRUCache GradFn),
      rest = ls.drop s →
      1 ≤ gc.maxSize →
      (∀ kg ∈ gc.entries, entryOK gb p ls kg) →
      lastOK gb p ls s gc →
      (diagGo gb p ls.length s rest gc).1
          = (List.range' s (ls.length - s)).map (fun i =>
              if blankAt ls i then ls.getD i ""
              else (oracleV gb p ls (bucket p ls.length i)).applyLine (ls.getD i ""))
        ∧ (∀ kg ∈ (diagGo gb p ls.length s rest gc).2.entries,
            kg ∈ gc.entries ∨ ∃ i, i < ls.length ∧ blankAt ls i = false ∧
              kg = (getDiagonalCacheKey p (lineShift p ls.length i),
                oracleV gb p ls (bucket p ls.length i)))
        ∧ (diagGo gb p ls.length s rest gc).2.maxSize = gc.maxSize := by
  intro rest
  induction rest with
  | nil =>
      intro s gc hdrop _ _ _
      have hn : ls.length ≤ s := by
        have hlen := congrArg List.length hdrop
        simp at hlen
        omega
      rw [diagGo_nil]
      refine ⟨?_, fun kg hkg => Or.inl hkg, rfl⟩
      have h0 : ls.length - s = 0 := by omega
      rw [h0]
      rfl
  | cons line rest' ih =>
      intro s gc hdrop hmax hentry hlast
      obtain ⟨hline, hrest, hs⟩ := drop_cons_spec ls s line rest' hdrop.symm
      have hline' : ls.getD s "" = line := hline
      have hns : ls.length - s = (ls.length - (s + 1)) + 1 := by omega
      rw [hns, List.range'_succ, List.map_cons]
      by_cases hb : isBlank line = true
      · -- blank line: passed through, cache untouched
        have hbA : blankAt ls s = true := by
          unfold blankAt
          rw [hline']
          exact hb
        rw [diagGo_cons_blank gb p ls.length s line rest' gc hb]
        have hlast' : lastOK gb p ls (s + 1) gc := by
          intro i' hi' hbi' hgap
          have hi'' : i' < s := by
            rcases Nat.lt_succ_iff_lt_or_eq.mp hi' with h | h
            · exact h
            · exfalso
              rw [h, hbA] at hbi'
              exact Bool.noConfusion hbi'
          exact hlast i' hi'' hbi' (fun j hj1 hj2 => hgap j hj1 (by omega))
        have IH := ih (s + 1) gc hrest.symm hmax hentry hlast'
        refine ⟨?_, IH.2.1, IH.2.2⟩
        simp only
        rw [if_pos hbA, hline', IH.1]
      · -- non-blank line
        have hb' : isBlank line = false := by
          cases h : isBlank line
          · rfl
          · exact absurd h hb
        have hbA : blankAt ls s = false := by
          unfold blankAt
          rw [hline']
          exact hb'
        cases hlook : List.lookup (getDiagonalCacheKey p (lineShift p ls.length s))
            gc.entries with
        | some gval =>
            -- cache hit: the stored value is the bucket's oracle gradient
            have hmem : (getDiagonalCacheKey p (lineShift p ls.length s), gval)
                ∈ gc.entries := mem_of_lookup_eq_some hlook
            have hgval : gval = oracleV gb p ls (bucket p ls.length s) :=
              hentry _ hmem s hs hbA rfl
            rw [diagGo_cons_hit gb p ls.length s line rest' gc gval hb' hlook]
            have hgc' := get_entries_hit hlook
            have hmax' : 1 ≤ ((gc.get (getDiagonalCacheKey p
                (lineShift p ls.length s))).2).maxSize := by
              rw [get_maxSize]
              exact hmax
            have hentry' : ∀ kg ∈ ((gc.get (getDiagonalCacheKey p
                (lineShift p ls.length s))).2).entries, entryOK gb p ls kg := by
              intro kg hkg
              rw [hgc'] at hkg
              rcases List.mem_cons.mp hkg with h | h
              · exact hentry _ (h ▸ hmem)
              · exact hentry _ (removeKey_subset _ _ _ h)
            have hlast' : lastOK gb p ls (s + 1)
                ((gc.get (getDiagonalCacheKey p (lineShift p ls.length s))).2) := by
              intro i' hi' hbi' hgap
              have hi'' : i' = s := by
                by_contra hne
                have hilt : i' < s := by omega
                have := hgap s hilt (by omega)
                rw [hbA] at this
                exact Bool.noConfusion this
              subst hi''
              rw [hgc']
              rw [lookup_cons_self]
              rw [hgval]
            have IH := ih (s + 1) _ hrest.symm hmax' hentry' hlast'
            refine ⟨?_, ?_, ?_⟩
            · simp only
              rw [if_neg (by rw [hbA]; exact Bool.noConfusion), hline', IH.1, hgval]
            · intro kg hkg
              rcases IH.2.1 kg hkg with h | h
              · rw [hgc'] at h
                rcases List.mem_cons.mp h with h2 | h2
                · exact Or.inl (h2 ▸ hmem)
                · exact Or.inl (removeKey_subset _ _ _ h2)
              · exact Or.inr h
            · rw [IH.2.2, get_maxSize]
        | none =>
            -- cache miss: line s is the first non-blank line of its bucket
            have hfirst : ∀ i', i' < s → blankAt ls i' = false →
                bucket p ls.length i' ≠ bucket p ls.length s := by
              intro i₀ hi₀ hbi₀ hbeq
              -- take the last non-blank line before s
              set P : Nat → Prop := fun j => blankAt ls j = false with hP
              have hdec : DecidablePred P := fun j => instDecidableEqBool _ _
              have hi₀le : i₀ ≤ s - 1 := by omega
              set i₂ := Nat.findGreatest P (s - 1) with hi₂
              have hPi₂ : P i₂ := Nat.findGreatest_spec hi₀le hbi₀
              have hle : i₀ ≤ i₂ := Nat.le_findGreatest hi₀le hbi₀
              have hi₂le : i₂ ≤ s - 1 := Nat.findGreatest_le (s - 1)
              have hgap : ∀ j, i₂ < j → j < s → blankAt ls j = true := by
                intro j hj1 hj2
                have hnp := Nat.findGreatest_is_greatest (n := s - 1) hj1 (by omega)
                rw [hP] at hnp
                simp only at hnp
                cases h : blankAt ls j
                · exact absurd h hnp
                · rfl
              have hbuck : bucket p ls.length i₂ = bucket p ls.length s := by
                have h1 : bucket p ls.length i₀ ≤ bucket p ls.length i₂ :=
                  bucket_mono hle
                have h2 : bucket p ls.length i₂ ≤ bucket p ls.length s :=
                  bucket_mono (by omega)
                omega
              have hkey : getDiagonalCacheKey p (lineShift p ls.length i₂)
                  = getDiagonalCacheKey p (lineShift p ls.length s) := by
                apply dKey_congr
                have := hbuck
                unfold bucket at this
                exact this
              have hl := hlast i₂ (by omega) hPi₂ hgap
              rw [hkey, hlook] at hl
              exact Option.noConfusion hl
            have hfirstIdx : firstIdx p ls (bucket p ls.length s) = some s := by
              unfold firstIdx
              apply findFrom_eq_some ls.length 0 s (by omega) (by omega)
              · unfold bucketPred
                rw [hbA]
                simp
              · intro j _ hj
                unfold bucketPred
                cases hbj : blankAt ls j
                · have := hfirst j hj hbj
                  simp [this]
                · simp [hbj]
            have horacle : oracleV gb p ls (bucket p ls.length s)
                = gb (shiftedPalette p (lineShift p ls.length s)) := by
              unfold oracleV
              rw [hfirstIdx]
            rw [diagGo_cons_miss gb p ls.length s line rest' gc hb' hlook]
            have hgmiss := get_entries_miss hlook
            -- the state after the get-miss and the set
            have hmax₁ : 1 ≤ ((gc.get (getDiagonalCacheKey p
                (lineShift p ls.length s))).2).maxSize := by
              rw [get_maxSize]; exact hmax
            have hmax₂ : 1 ≤ (((gc.get (getDiagonalCacheKey p
                (lineShift p ls.length s))).2).set
                  (getDiagonalCacheKey p (lineShift p ls.length s))
                  (gb (shiftedPalette p (lineShift p ls.length s)))).maxSize := by
              rw [set_maxSize]; exact hmax₁
            have hsub₂ := set_entries_sub
              ((gc.get (getDiagonalCacheKey p (lineShift p ls.length s))).2)
              (getDiagonalCacheKey p (lineShift p ls.length s))
              (gb (shiftedPalette p (lineShift p ls.length s)))
            have hentry₂ : ∀ kg ∈ (((gc.get (getDiagonalCacheKey p
                (lineShift p ls.length s))).2).set
                  (getDiagonalCacheKey p (lineShift p ls.length s))
                  (gb (shiftedPalette p (lineShift p ls.length s)))).entries,
                entryOK gb p ls kg := by
              intro kg hkg
              rcases hsub₂ kg hkg with h | h
              · rw [h, ← horacle]
                exact entryOK_oracle_pair gb p ls s
              · rw [hgmiss] at h
                exact hentry _ h
            have hlast₂ : lastOK gb p ls (s + 1)
                (((gc.get (getDiagonalCacheKey p
                  (lineShift p ls.length s))).2).set
                  (getDiagonalCacheKey p (lineShift p ls.length s))
                  (gb (shiftedPalette p (lineShift p ls.length s)))) := by
              intro i' hi' hbi' hgap
              have hi'' : i' = s := by
                by_contra hne
                have hilt : i' < s := by omega
                have := hgap s hilt (by omega)
                rw [hbA] at this
                exact Bool.noConfusion this
              subst hi''
              rw [lookup_set_self _ _ _ hmax₁, horacle]
            have IH := ih (s + 1) _ hrest.symm hmax₂ hentry₂ hlast₂
            refine ⟨?_, ?_, ?_⟩
            · simp only
              rw [if_neg (by rw [hbA]; exact Bool.noConfusion), hline', IH.1, horacle]
            · intro kg hkg
              rcases IH.2.1 kg hkg with h | h
              · rcases hsub₂ kg h with h2 | h2
                · exact Or.inr ⟨s, hs, hbA, by rw [h2, horacle]⟩
                · rw [hgmiss] at h2
                  exact Or.inl h2
              · exact Or.inr h
            · rw [IH.2.2, set_maxSize, get_maxSize]

theorem getD_map_range' {α : Type} (f : Nat → α) (n i : Nat) (d : α) (h : i < n) :
    ((List.range' 0 n).map f).getD i d = f i := by
  rw [List.getD_eq_getElem?_getD, List.getElem?_map, List.getElem?_range' 0 1 h]
  simp

/-- When the glyph block has at most `100 · L` lines, two distinct line
indices always land in distinct hundredth-buckets: consecutive shifts
differ by `L/n ≥ 1/100`. -/
theorem bucket_strict_mono {p : List String} {n i j : Nat}
    (hn : n ≤ 100 * p.length) (hn0 : 0 < n) (h : j < i) :
    bucket p n j < bucket p n i := by
  have hn' : (0 : ℚ) < (n : ℚ) := by exact_mod_cast hn0
  have hstep : ((j : ℚ) + 1) ≤ (i : ℚ) := by exact_mod_cast h
  have hnle : (n : ℚ) ≤ 100 * (p.length : ℚ) := by exact_mod_cast hn
  have key : lineShift p n j * 100 + 1 ≤ lineShift p n i * 100 := by
    unfold lineShift
    have hfrac : (1 : ℚ) ≤ (p.length : ℚ) * 100 / n :=
      (one_le_div hn').mpr (by linarith)
    have e3 : ((i : ℚ) / (n : ℚ)) * (p.length : ℚ) * 100
        - ((j : ℚ) / (n : ℚ)) * (p.length : ℚ) * 100
        = ((i : ℚ) - (j : ℚ)) * ((p.length : ℚ) * 100 / n) := by ring
    have h4 : (1 : ℚ) ≤ (i : ℚ) - (j : ℚ) := by linarith
    have h5 : (1 : ℚ) ≤ ((i : ℚ) - (j : ℚ)) * ((p.length : ℚ) * 100 / n) := by
      nlinarith [hfrac]
    linarith [e3, h5]
  have hcalc : round (lineShift p n j * 100) + 1 ≤ round (lineShift p n i * 100) := by
    rw [← round_add_one]
    exact round_mono_rat key
  unfold bucket
  omega

/-- If no earlier non-blank line shares line `i`'s bucket, then `i` is
its bucket's first index and the oracle gradient is `i`'s own formula
gradient. -/
theorem oracleV_eq_self (gb : List String → GradFn) (p ls : List String)
    (i : Nat) (hi : i < ls.length) (hb : blankAt ls i = false)
    (hfirst : ∀ j, j < i → blankAt ls j = false →
      bucket p ls.length j ≠ bucket p ls.length i) :
    oracleV gb p ls (bucket p ls.length i)
      = gb (shiftedPalette p (lineShift p ls.length i)) := by
  have hidx : firstIdx p ls (bucket p ls.length i) = some i := by
    unfold firstIdx
    apply findFrom_eq_some ls.length 0 i (by omega) (by omega)
    · unfold bucketPred
      rw [hb]
      simp
    · intro j _ hj
      unfold bucketPred
      cases hbj : blankAt ls j
      · simp [hfirst j hj hbj]
      · simp [hbj]
  unfold oracleV
  rw [hidx]

/-- C3 (amended) — Diagonal shift determinism.  For every palette of
length `L ≥ 1` and every glyph block of `n` lines, *provided the run
starts with an empty gradient cache and `n ≤ 100·L`*, the diagonal
strategy colors each non-blank line at index `i` (blank lines counted in
both `i` and `n`) with the gradient built from the shifted palette whose
`j`-th stop is `stops[⌊j + (i/n)·L⌋ mod L]` (`shiftedPalette`), and
blank lines pass through.  The two added provisos are forced by
`c3_counterexample`: beyond `100·L` lines, two distinct shifts can round
to the same `toFixed(2)` cache key, and the later line reuses the
earlier line's cached gradient. -/
theorem c3_diagonal_shift (gb : List String → GradFn) (palette : List String)
    (asciiArt : String) (m : Nat) (hL : 1 ≤ palette.length) (hm : 1 ≤ m)
    (hn : (splitLines asciiArt).length ≤ 100 * palette.length) :
    (processDiagonalGradient gb (LRUCache.empty GradFn m) asciiArt palette).1
      = joinLines ((List.range' 0 (splitLines asciiArt).length).map fun i =>
          if blankAt (splitLines asciiArt) i then (splitLines asciiArt).getD i ""
          else (gb (shiftedPalette palette
              (lineShift palette (splitLines asciiArt).length i))).applyLine
            ((splitLines asciiArt).getD i "")) := by
  have hspec := diagGo_spec gb palette (splitLines asciiArt) (splitLines asciiArt)
    0 (LRUCache.empty GradFn m) (List.drop_zero _).symm hm
    (by intro kg hkg; exact absurd hkg (List.not_mem_nil kg))
    (by intro i' hi'; omega)
  show joinLines (diagGo gb palette (splitLines asciiArt).length 0
      (splitLines asciiArt) (LRUCache.empty GradFn m)).1 = _
  rw [hspec.1]
  apply congrArg joinLines
  apply List.map_congr_left
  intro i hi
  have hi' : i < (splitLines asciiArt).length := by
    have := List.mem_range'_1.mp hi
    omega
  by_cases hb : blankAt (splitLines asciiArt) i
  · rw [if_pos hb, if_pos hb]
  · have hb' : blankAt (splitLines asciiArt) i = false := by
      cases h : blankAt (splitLines asciiArt) i
      · rfl
      · exact absurd h hb
    rw [if_neg hb, if_neg hb]
    have horacle := oracleV_eq_self gb palette (splitLines asciiArt) i hi' hb'
      (fun j hj _ => Int.ne_of_lt (bucket_strict_mono hn (by omega) hj))
    rw [horacle]

/-- Witness for C3 at the spec's own example: a 3-stop palette and a
4-line block (all lines non-blank), within the `n ≤ 100·L` proviso. -/
theorem c3_diagonal_shift_witness :
    (1 ≤ (["A", "B", "C"] : List String).length
      ∧ 1 ≤ 200
      ∧ (splitLines "l0\nl1\nl2\nl3").length ≤ 100 * (["A", "B", "C"] : List String).length)
    ∧ (processDiagonalGradient (fun pal => ⟨fun line => joinComma pal ++ "|" ++ line, id⟩)
        (LRUCache.empty GradFn 200) "l0\nl1\nl2\nl3" ["A", "B", "C"]).1
      = joinLines ((List.range' 0 (splitLines "l0\nl1\nl2\nl3").length).map fun i =>
          if blankAt (splitLines "l0\nl1\nl2\nl3") i
          then (splitLines "l0\nl1\nl2\nl3").getD i ""
          else ((fun pal => (⟨fun line => joinComma pal ++ "|" ++ line, id⟩ : GradFn))
              (shiftedPalette ["A", "B", "C"]
                (lineShift ["A", "B", "C"] (splitLines "l0\nl1\nl2\nl3").length i))).applyLine
            ((splitLines "l0\nl1\nl2\nl3").getD i "")) :=
  ⟨⟨by decide, by decide, by decide⟩,
    c3_diagonal_shift (fun pal => ⟨fun line => joinComma pal ++ "|" ++ line, id⟩)
      ["A", "B", "C"] "l0\nl1\nl2\nl3" 200 (by decide) (by decide) (by decide)⟩

/-- A gradient builder that records which palette it was built from, to
observe which shifted palette a line was colored with. -/
def obsGrad : List String → GradFn :=
  fun pal => ⟨fun line => joinComma pal ++ "|" ++ line, id⟩

/-- A 201-line glyph block, blank except for lines 100 and 101. -/
def cex3Lines : List String :=
  List.replicate 100 "" ++ ["x", "x"] ++ List.replicate 99 ""

theorem cex3_shift100 : ((0 : ℕ) : ℚ) + lineShift ["a", "b"] cex3Lines.length 100
    = 200 / 201 := by
  show ((0 : ℕ) : ℚ) + lineShift ["a", "b"] 201 100 = 200 / 201
  unfold lineShift
  push_cast
  norm_num

theorem cex3_bucket_eq :
    bucket ["a", "b"] cex3Lines.length 100 = bucket ["a", "b"] cex3Lines.length 101 := by
  show bucket ["a", "b"] 201 100 = bucket ["a", "b"] 201 101
  unfold bucket lineShift
  have e1 : ((100 : ℕ) : ℚ) / ((201 : ℕ) : ℚ) * ((["a", "b"] : List String).length : ℚ) * 100
      = 20000 / 201 := by push_cast; norm_num
  have e2 : ((101 : ℕ) : ℚ) / ((201 : ℕ) : ℚ) * ((["a", "b"] : List String).length : ℚ) * 100
      = 20200 / 201 := by push_cast; norm_num
  have r1 : round ((20000 : ℚ) / 201) = 100 := by
    rw [round_eq, Int.floor_eq_iff]
    constructor <;> norm_num
  have r2 : round ((20200 : ℚ) / 201) = 100 := by
    rw [round_eq, Int.floor_eq_iff]
    constructor <;> norm_num
  rw [e1, e2, r1, r2]

theorem cex3_shifted100 :
    shiftedPalette ["a", "b"] (lineShift ["a", "b"] cex3Lines.length 100)
      = ["a", "b"] := by
  have hsh : lineShift ["a", "b"] cex3Lines.length 100 = 200 / 201 := by
    show lineShift ["a", "b"] 201 100 = 200 / 201
    unfold lineShift
    push_cast
    norm_num
  unfold shiftedPalette
  rw [hsh]
  have hf0 : (⌊((0 : ℕ) : ℚ) + (200 : ℚ) / 201⌋).toNat = 0 := by
    have : ⌊((0 : ℕ) : ℚ) + (200 : ℚ) / 201⌋ = 0 := by
      rw [Int.floor_eq_iff]
      constructor <;> norm_num
    rw [this]
    rfl
  have hf1 : (⌊((1 : ℕ) : ℚ) + (200 : ℚ) / 201⌋).toNat = 1 := by
    have : ⌊((1 : ℕ) : ℚ) + (200 : ℚ) / 201⌋ = 1 := by
      rw [Int.floor_eq_iff]
      constructor <;> norm_num
    rw [this]
    rfl
  show List.map _ (List.range 2) = _
  rw [List.range_succ, List.range_succ, List.range_zero]
  simp only [List.nil_append, List.cons_append, List.map_cons, List.map_nil]
  rw [hf0, hf1]
  rfl

theorem cex3_shifted101 :
    shiftedPalette ["a", "b"] (lineShift ["a", "b"] cex3Lines.length 101)
      = ["b", "a"] := by
  have hsh : lineShift ["a", "b"] cex3Lines.length 101 = 202 / 201 := by
    show lineShift ["a", "b"] 201 101 = 202 / 201
    unfold lineShift
    push_cast
    norm_num
  unfold shiftedPalette
  rw [hsh]
  have hf0 : (⌊((0 : ℕ) : ℚ) + (202 : ℚ) / 201⌋).toNat = 1 := by
    have : ⌊((0 : ℕ) : ℚ) + (202 : ℚ) / 201⌋ = 1 := by
      rw [Int.floor_eq_iff]
      constructor <;> norm_num
    rw [this]
    rfl
  have hf1 : (⌊((1 : ℕ) : ℚ) + (202 : ℚ) / 201⌋).toNat = 2 := by
    have : ⌊((1 : ℕ) : ℚ) + (202 : ℚ) / 201⌋ = 2 := by
      rw [Int.floor_eq_iff]
      constructor <;> norm_num
    rw [this]
    rfl
  show List.map _ (List.range 2) = _
  rw [List.range_succ, List.range_succ, List.range_zero]
  simp only [List.nil_append, List.cons_append, List.map_cons, List.map_nil]
  rw [hf0, hf1]
  rfl

set_option maxRecDepth 20000 in
/-- C3 counterexample: with palette `["a","b"]` (`L = 2`) and a 201-line
block whose only non-blank lines are 100 and 101, the two lines' shifts
`200/201 ≈ 0.995` and `202/201 ≈ 1.005` both round to the `toFixed(2)`
key `"a,b:1.00"`.  Line 100 builds and caches the identity-shifted
gradient `["a","b"]`; line 101 then *hits* that cache entry and is
colored with `["a","b"]` — not with its formula palette `["b","a"]` as
the claim states.  (The builder `obsGrad` records the palette in the
output, making the two gradients observably different.) -/
theorem c3_counterexample :
    (splitLines (joinLines cex3Lines) = cex3Lines)
    ∧ ((processDiagonalGradient obsGrad (LRUCache.empty GradFn 200)
          (joinLines cex3Lines) ["a", "b"]).1
        = joinLines ((diagGo obsGrad ["a", "b"] cex3Lines.length 0 cex3Lines
            (LRUCache.empty GradFn 200)).1))
    ∧ ((diagGo obsGrad ["a", "b"] cex3Lines.length 0 cex3Lines
          (LRUCache.empty GradFn 200)).1.getD 101 "" = "a,b|x")
    ∧ ((obsGrad (shiftedPalette ["a", "b"]
          (lineShift ["a", "b"] cex3Lines.length 101))).applyLine
            (cex3Lines.getD 101 "") = "b,a|x")
    ∧ ("a,b|x" : String) ≠ "b,a|x" := by
  have hsplit : splitLines (joinLines cex3Lines) = cex3Lines := by decide
  refine ⟨hsplit, ?_, ?_, ?_, by decide⟩
  · show joinLines (diagGo obsGrad ["a", "b"]
        (splitLines (joinLines cex3Lines)).length 0
        (splitLines (joinLines cex3Lines)) (LRUCache.empty GradFn 200)).1 = _
    rw [hsplit]
  · have hspec := diagGo_spec obsGrad ["a", "b"] cex3Lines cex3Lines 0
      (LRUCache.empty GradFn 200) (List.drop_zero _).symm
      (by show 1 ≤ 200; omega)
      (by intro kg hkg; exact absurd hkg (List.not_mem_nil kg))
      (by intro i' hi'; omega)
    rw [hspec.1]
    rw [getD_map_range' _ _ 101 "" (by decide)]
    have hb101 : blankAt cex3Lines 101 = false := by decide
    simp only [hb101, Bool.false_eq_true, if_false]
    have hblankj : ∀ j, j < 100 → blankAt cex3Lines j = true := by decide
    have hb100 : blankAt cex3Lines 100 = false := by decide
    have hfidx : firstIdx ["a", "b"] cex3Lines
        (bucket ["a", "b"] cex3Lines.length 101) = some 100 := by
      unfold firstIdx
      apply findFrom_eq_some cex3Lines.length 0 100 (by omega) (by decide)
      · unfold bucketPred
        rw [hb100]
        simp only [Bool.not_false, Bool.true_and]
        exact decide_eq_true cex3_bucket_eq
      · intro j _ hj
        unfold bucketPred
        rw [hblankj j hj]
        rfl
    have horacle : oracleV obsGrad ["a", "b"] cex3Lines
        (bucket ["a", "b"] cex3Lines.length 101)
        = obsGrad (shiftedPalette ["a", "b"] (lineShift ["a", "b"] cex3Lines.length 100)) := by
      unfold oracleV
      rw [hfidx]
    rw [horacle, cex3_shifted100]
    have hx : cex3Lines.getD 101 "" = "x" := by decide
    rw [hx]
    decide
  · rw [cex3_shifted101]
    have hx : cex3Lines.getD 101 "" = "x" := by decide
    rw [hx]
    decide

/-! ## C1, C10: the render facade -/

theorem gradKey_ne_diagKey (p : List String) (q : ℚ) :
    getGradientCacheKey p ≠ getDiagonalCacheKey p q := by
  intro h
  have hd := congrArg (fun s => s.data.length) h
  unfold getDiagonalCacheKey getGradientCacheKey at hd
  simp only [String.data_append, colon_data, List.length_append, List.length_cons,
    List.length_nil] at hd
  omega

theorem figletStep_miss (figlet : String → String → String) (fc : LRUCache String)
    (text font : String)
    (hlook : List.lookup (getFigletCacheKey text font) fc.entries = none) :
    figletStep figlet fc text font
      = (figlet text font,
          ((fc.get (getFigletCacheKey text font)).2).set (getFigletCacheKey text font)
            (figlet text font)) := by
  have hfst : (fc.get (getFigletCacheKey text font)).1 = none := by
    rw [get_fst, hlook]
  unfold figletStep
  simp only [hfst]

theorem figletStep_cold (figlet : String → String → String) (fc : LRUCache String)
    (text font : String) (hE : fc.entries = []) (hM : 1 ≤ fc.maxSize) :
    (figletStep figlet fc text font).1 = figlet text font
    ∧ (figletStep figlet fc text font).2.entries
        = [(getFigletCacheKey text font, figlet text font)]
    ∧ (figletStep figlet fc text font).2.maxSize = fc.maxSize := by
  have hlook : List.lookup (getFigletCacheKey text font) fc.entries = none := by
    rw [hE]; rfl
  rw [figletStep_miss figlet fc text font hlook]
  have hE2 : ((fc.get (getFigletCacheKey text font)).2).entries = fc.entries :=
    get_entries_miss hlook
  have hM2 : ((fc.get (getFigletCacheKey text font)).2).maxSize = fc.maxSize :=
    get_maxSize ..
  have hfresh : List.lookup (getFigletCacheKey text font)
      ((fc.get (getFigletCacheKey text font)).2).entries = none := by
    rw [hE2, hE]; rfl
  have hset := set_fresh_no_evict ((fc.get (getFigletCacheKey text font)).2)
    (getFigletCacheKey text font) (figlet text font) hfresh
    (by rw [hE2, hE, hM2]; simpa using hM)
  rw [hset]
  exact ⟨rfl, by simp [hE2, hE], by simpa using hM2⟩

theorem figletStep_warm (figlet : String → String → String) (fc : LRUCache String)
    (text font : String)
    (hlook : List.lookup (getFigletCacheKey text font) fc.entries
      = some (figlet text font)) :
    (figletStep figlet fc text font).1 = figlet text font := by
  have hfst : (fc.get (getFigletCacheKey text font)).1 = some (figlet text font) := by
    rw [get_fst, hlook]
  unfold figletStep
  simp only [hfst]
  by_cases hF : figlet text font = ""
  · rw [if_pos hF]
  · rw [if_neg hF]

theorem gradientStep_miss (gb : List String → GradFn) (gc : LRUCache GradFn)
    (palette : List String)
    (hlook : List.lookup (getGradientCacheKey palette) gc.entries = none) :
    gradientStep gb gc palette
      = (gb palette,
          ((gc.get (getGradientCacheKey palette)).2).set (getGradientCacheKey palette)
            (gb palette)) := by
  have hfst : (gc.get (getGradientCacheKey palette)).1 = none := by
    rw [get_fst, hlook]
  unfold gradientStep
  simp only [hfst]

theorem gradientStep_hit (gb : List String → GradFn) (gc : LRUCache GradFn)
    (palette : List String) (g : GradFn)
    (hlook : List.lookup (getGradientCacheKey palette) gc.entries = some g) :
    gradientStep gb gc palette = (g, (gc.get (getGradientCacheKey palette)).2) := by
  have hfst : (gc.get (getGradientCacheKey palette)).1 = some g := by
    rw [get_fst, hlook]
  unfold gradientStep
  simp only [hfst]

theorem gradientStep_cold (gb : List String → GradFn) (gc : LRUCache GradFn)
    (palette : List String) (hE : gc.entries = []) (hM : 1 ≤ gc.maxSize) :
    (gradientStep gb gc palette).1 = gb palette
    ∧ (gradientStep gb gc palette).2.entries
        = [(getGradientCacheKey palette, gb palette)]
    ∧ (gradientStep gb gc palette).2.maxSize = gc.maxSize := by
  have hlook : List.lookup (getGradientCacheKey palette) gc.entries = none := by
    rw [hE]; rfl
  rw [gradientStep_miss gb gc palette hlook]
  have hE2 : ((gc.get (getGradientCacheKey palette)).2).entries = gc.entries :=
    get_entries_miss hlook
  have hM2 : ((gc.get (getGradientCacheKey palette)).2).maxSize = gc.maxSize :=
    get_maxSize ..
  have hfresh : List.lookup (getGradientCacheKey palette)
      ((gc.get (getGradientCacheKey palette)).2).entries = none := by
    rw [hE2, hE]; rfl
  have hset := set_fresh_no_evict ((gc.get (getGradientCacheKey palette)).2)
    (getGradientCacheKey palette) (gb palette) hfresh
    (by rw [hE2, hE, hM2]; simpa using hM)
  rw [hset]
  exact ⟨rfl, by simp [hE2, hE], by simpa using hM2⟩

/-- If every gradient-cache entry keyed by the whole-palette key holds
the freshly built gradient, the gradient block returns exactly that
gradient, and only adds that pair. -/
theorem gradientStep_good (gb : List String → GradFn) (gc : LRUCache GradFn)
    (palette : List String)
    (hgood : ∀ kg ∈ gc.entries,
      kg.1 = getGradientCacheKey palette → kg.2 = gb palette) :
    (gradientStep gb gc palette).1 = gb palette
    ∧ (∀ kg ∈ (gradientStep gb gc palette).2.entries,
        kg ∈ gc.entries ∨ kg = (getGradientCacheKey palette, gb palette))
    ∧ (gradientStep gb gc palette).2.maxSize = gc.maxSize := by
  cases hlook : List.lookup (getGradientCacheKey palette) gc.entries with
  | some g =>
      rw [gradientStep_hit gb gc palette g hlook]
      have hg : g = gb palette := hgood _ (mem_of_lookup_eq_some hlook) rfl
      refine ⟨hg, ?_, get_maxSize ..⟩
      intro kg hkg
      rw [get_entries_hit hlook] at hkg
      rcases List.mem_cons.mp hkg with h | h
      · exact Or.inl (h ▸ mem_of_lookup_eq_some hlook)
      · exact Or.inl (removeKey_subset _ _ _ h)
  | none =>
      rw [gradientStep_miss gb gc palette hlook]
      refine ⟨rfl, ?_, by rw [set_maxSize, get_maxSize]⟩
      intro kg hkg
      rcases set_entries_sub _ _ _ kg hkg with h | h
      · exact Or.inr h
      · rw [get_entries_miss hlook] at h
        exact Or.inl h

theorem renderLogo_horizontal (figlet : String → String → String)
    (gb : List String → GradFn) (st : RenderState) (text : String)
    (palette : List String) (font : String) :
    renderLogo figlet gb st text palette font "horizontal"
      = (processHorizontalGradient (gradientStep gb st.gradientCache palette).1
            (figletStep figlet st.figletCache text font).1,
          ⟨(figletStep figlet st.figletCache text font).2,
            (gradientStep gb st.gradientCache palette).2⟩) := rfl

theorem renderLogo_diagonal (figlet : String → String → String)
    (gb : List String → GradFn) (st : RenderState) (text : String)
    (palette : List String) (font : String) :
    renderLogo figlet gb st text palette font "diagonal"
      = ((processDiagonalGradient gb (gradientStep gb st.gradientCache palette).2
            (figletStep figlet st.figletCache text font).1 palette).1,
          ⟨(figletStep figlet st.figletCache text font).2,
            (processDiagonalGradient gb (gradientStep gb st.gradientCache palette).2
              (figletStep figlet st.figletCache text font).1 palette).2⟩) := rfl

theorem renderLogo_default (figlet : String → String → String)
    (gb : List String → GradFn) (st : RenderState) (text : String)
    (palette : List String) (font direction : String)
    (hd1 : direction ≠ "horizontal") (hd2 : direction ≠ "diagonal") :
    renderLogo figlet gb st text palette font direction
      = ((gradientStep gb st.gradientCache palette).1.multiline
            (figletStep figlet st.figletCache text font).1,
          ⟨(figletStep figlet st.figletCache text font).2,
            (gradientStep gb st.gradientCache palette).2⟩) := by
  unfold renderLogo
  simp only [if_neg hd1, if_neg hd2]

/-- C10 — Implicit direction fallback: any direction other than
`"horizontal"` and `"diagonal"` — not only `"vertical"` — takes the
`switch`'s `default:` arm, so `renderLogo` behaves exactly as with
`direction = "vertical"`: same output string and same cache state, and
(the collaborators being total) no error is raised. -/
theorem c10_direction_fallback (figlet : String → String → String)
    (gb : List String → GradFn) (st : RenderState) (text : String)
    (palette : List String) (font direction : String)
    (hd1 : direction ≠ "horizontal") (hd2 : direction ≠ "diagonal") :
    renderLogo figlet gb st text palette font direction
      = renderLogo figlet gb st text palette font "vertical" := by
  rw [renderLogo_default figlet gb st text palette font direction hd1 hd2,
    renderLogo_default figlet gb st text palette font "vertical"
      (by decide) (by decide)]

/-- Witness for C10 at a concrete misspelled direction. -/
theorem c10_direction_fallback_witness :
    (("diagnoal" : String) ≠ "horizontal" ∧ ("diagnoal" : String) ≠ "diagonal")
    ∧ renderLogo (fun t _ => t) (fun pal => ⟨fun l => joinComma pal ++ "|" ++ l, id⟩)
        RenderState.initial "HI" ["a", "b"] "Standard" "diagnoal"
      = renderLogo (fun t _ => t) (fun pal => ⟨fun l => joinComma pal ++ "|" ++ l, id⟩)
        RenderState.initial "HI" ["a", "b"] "Standard" "vertical" :=
  ⟨⟨by decide, by decide⟩,
    c10_direction_fallback (fun t _ => t)
      (fun pal => ⟨fun l => joinComma pal ++ "|" ++ l, id⟩)
      RenderState.initial "HI" ["a", "b"] "Standard" "diagnoal"
      (by decide) (by decide)⟩

theorem entryOK_of_gradKey (gb : List String → GradFn) (p ls : List String)
    (g : GradFn) : entryOK gb p ls (getGradientCacheKey p, g) := by
  intro i _ _ hk
  exact absurd hk (gradKey_ne_diagKey p _)

/-- Two diagonal runs over the same art with caches whose entries all
satisfy `entryOK` produce the same output string. -/
theorem processDiagonal_transparent (gb : List String → GradFn) (p : List String)
    (art : String) (gc₁ gc₂ : LRUCache GradFn)
    (h₁ : 1 ≤ gc₁.maxSize) (h₂ : 1 ≤ gc₂.maxSize)
    (hgood₁ : ∀ kg ∈ gc₁.entries, entryOK gb p (splitLines art) kg)
    (hgood₂ : ∀ kg ∈ gc₂.entries, entryOK gb p (splitLines art) kg) :
    (processDiagonalGradient gb gc₁ art p).1
      = (processDiagonalGradient gb gc₂ art p).1 := by
  have hs₁ := diagGo_spec gb p (splitLines art) (splitLines art) 0 gc₁
    (List.drop_zero _).symm h₁ hgood₁ (by intro i' hi'; omega)
  have hs₂ := diagGo_spec gb p (splitLines art) (splitLines art) 0 gc₂
    (List.drop_zero _).symm h₂ hgood₂ (by intro i' hi'; omega)
  show joinLines (diagGo gb p (splitLines art).length 0 (splitLines art) gc₁).1
    = joinLines (diagGo gb p (splitLines art).length 0 (splitLines art) gc₂).1
  rw [hs₁.1, hs₂.1]

/-- After a diagonal run, the cache again contains only old entries and
oracle pairs, and its capacity is unchanged. -/
theorem processDiagonal_state (gb : List String → GradFn) (p : List String)
    (art : String) (gc₁ : LRUCache GradFn) (h₁ : 1 ≤ gc₁.maxSize)
    (hgood₁ : ∀ kg ∈ gc₁.entries, entryOK gb p (splitLines art) kg) :
    (∀ kg ∈ (processDiagonalGradient gb gc₁ art p).2.entries,
        kg ∈ gc₁.entries ∨ ∃ i, i < (splitLines art).length
          ∧ blankAt (splitLines art) i = false
          ∧ kg = (getDiagonalCacheKey p (lineShift p (splitLines art).length i),
              oracleV gb p (splitLines art) (bucket p (splitLines art).length i)))
    ∧ (processDiagonalGradient gb gc₁ art p).2.maxSize = gc₁.maxSize := by
  have hs₁ := diagGo_spec gb p (splitLines art) (splitLines art) 0 gc₁
    (List.drop_zero _).symm h₁ hgood₁ (by intro i' hi'; omega)
  exact ⟨hs₁.2.1, hs₁.2.2⟩

/-- C1 — Cache transparency: for every text, palette, font and
direction, running `renderLogo` with freshly cleared caches and then
running it again on the warmed caches produces byte-identical output.
The starting state covers `cacheManager` at construction and after
`clearRenderCache()` (both caches empty, positive capacities; the
singleton's capacities are 500 and 200). -/
theorem c1_cache_transparency (figlet : String → String → String)
    (gb : List String → GradFn) (st₀ : RenderState) (text : String)
    (palette : List String) (font direction : String)
    (hfE : st₀.figletCache.entries = []) (hgE : st₀.gradientCache.entries = [])
    (hfM : 1 ≤ st₀.figletCache.maxSize) (hgM : 1 ≤ st₀.gradientCache.maxSize) :
    (renderLogo figlet gb st₀ text palette font direction).1
      = (renderLogo figlet gb
          (renderLogo figlet gb st₀ text palette font direction).2
          text palette font direction).1 := by
  obtain ⟨hf1, hfE1, hfM1⟩ := figletStep_cold figlet st₀.figletCache text font hfE hfM
  obtain ⟨hg1, hgE1, hgM1⟩ := gradientStep_cold gb st₀.gradientCache palette hgE hgM
  have hlookF : List.lookup (getFigletCacheKey text font)
      ((figletStep figlet st₀.figletCache text font).2).entries
      = some (figlet text font) := by
    rw [hfE1]
    exact lookup_cons_self _ _ _
  have hwarmF := figletStep_warm figlet
    ((figletStep figlet st₀.figletCache text font).2) text font hlookF
  have hgood1g : ∀ kg ∈ ((gradientStep gb st₀.gradientCache palette).2).entries,
      kg.1 = getGradientCacheKey palette → kg.2 = gb palette := by
    intro kg hkg _
    rw [hgE1] at hkg
    rw [List.mem_singleton.mp hkg]
  by_cases hdh : direction = "horizontal"
  · subst hdh
    rw [renderLogo_horizontal, renderLogo_horizontal]
    simp only
    rw [hf1, hg1, hwarmF, (gradientStep_good gb _ palette hgood1g).1]
  · by_cases hdd : direction = "diagonal"
    · subst hdd
      rw [renderLogo_diagonal, renderLogo_diagonal]
      simp only
      rw [hf1, hwarmF]
      -- the run-1 gradient cache: exactly the whole-palette pair
      have hok₁ : ∀ kg ∈ ((gradientStep gb st₀.gradientCache palette).2).entries,
          entryOK gb palette (splitLines (figlet text font)) kg := by
        intro kg hkg
        rw [hgE1] at hkg
        rw [List.mem_singleton.mp hkg]
        exact entryOK_of_gradKey gb palette _ (gb palette)
      have hM₁ : 1 ≤ ((gradientStep gb st₀.gradientCache palette).2).maxSize := by
        rw [hgM1]; exact hgM
      -- the state after the run-1 diagonal pass
      obtain ⟨hsubD, hMD⟩ := processDiagonal_state gb palette (figlet text font)
        ((gradientStep gb st₀.gradientCache palette).2) hM₁ hok₁
      have hgoodD : ∀ kg ∈ ((processDiagonalGradient gb
          ((gradientStep gb st₀.gradientCache palette).2)
          (figlet text font) palette).2).entries,
          kg.1 = getGradientCacheKey palette → kg.2 = gb palette := by
        intro kg hkg hk1
        rcases hsubD kg hkg with h | ⟨i, _, _, hpair⟩
        · rw [hgE1] at h
          rw [List.mem_singleton.mp h]
        · exfalso
          rw [hpair] at hk1
          exact gradKey_ne_diagKey palette _ hk1.symm
      obtain ⟨hg2, hsub2, hM2⟩ := gradientStep_good gb _ palette hgoodD
      have hok₂ : ∀ kg ∈ ((gradientStep gb ((processDiagonalGradient gb
          ((gradientStep gb st₀.gradientCache palette).2)
          (figlet text font) palette).2) palette).2).entries,
          entryOK gb palette (splitLines (figlet text font)) kg := by
        intro kg hkg
        rcases hsub2 kg hkg with h | h
        · rcases hsubD kg h with h2 | ⟨i, _, _, hpair⟩
          · rw [hgE1] at h2
            rw [List.mem_singleton.mp h2]
            exact entryOK_of_gradKey gb palette _ (gb palette)
          · rw [hpair]
            exact entryOK_oracle_pair gb palette _ i
        · rw [h]
          exact entryOK_of_gradKey gb palette _ (gb palette)
      have hM₂ : 1 ≤ ((gradientStep gb ((processDiagonalGradient gb
          ((gradientStep gb st₀.gradientCache palette).2)
          (figlet text font) palette).2) palette).2).maxSize := by
        rw [hM2, hMD]
        exact hM₁
      exact processDiagonal_transparent gb palette (figlet text font) _ _ hM₁ hM₂ hok₁ hok₂
    · rw [renderLogo_default figlet gb st₀ text palette font direction hdh hdd,
        renderLogo_default figlet gb _ text palette font direction hdh hdd]
      simp only
      rw [hf1, hg1, hwarmF, (gradientStep_good gb _ palette hgood1g).1]

/-- Witness for C1 at the freshly constructed cache manager and concrete
inputs. -/
theorem c1_cache_transparency_witness :
    (RenderState.initial.figletCache.entries = []
      ∧ RenderState.initial.gradientCache.entries = []
      ∧ 1 ≤ RenderState.initial.figletCache.maxSize
      ∧ 1 ≤ RenderState.initial.gradientCache.maxSize)
    ∧ (renderLogo (fun t _ => t ++ "\n" ++ t)
        (fun pal => ⟨fun l => joinComma pal ++ "|" ++ l, fun s => "V|" ++ s⟩)
        RenderState.initial "HI" ["a", "b"] "Standard" "diagonal").1
      = (renderLogo (fun t _ => t ++ "\n" ++ t)
          (fun pal => ⟨fun l => joinComma pal ++ "|" ++ l, fun s => "V|" ++ s⟩)
          (renderLogo (fun t _ => t ++ "\n" ++ t)
            (fun pal => ⟨fun l => joinComma pal ++ "|" ++ l, fun s => "V|" ++ s⟩)
            RenderState.initial "HI" ["a", "b"] "Standard" "diagonal").2
          "HI" ["a", "b"] "Standard" "diagonal").1 :=
  ⟨⟨rfl, rfl, by decide, by decide⟩,
    c1_cache_transparency (fun t _ => t ++ "\n" ++ t)
      (fun pal => ⟨fun l => joinComma pal ++ "|" ++ l, fun s => "V|" ++ s⟩)
      RenderState.initial "HI" ["a", "b"] "Standard" "diagonal"
      rfl rfl (by decide) (by decide)⟩

/-! ## C4: blank-line invariance -/

theorem diagGo_length (gb : List String → GradFn) (p : List String) (n : Nat) :
    ∀ (rest : List String) (s : Nat) (gc : LRUCache GradFn),
      (diagGo gb p n s rest gc).1.length = rest.length := by
  intro rest
  induction rest with
  | nil => intro s gc; rfl
  | cons line rest' ih =>
      intro s gc
      by_cases hb : isBlank line = true
      · rw [diagGo_cons_blank gb p n s line rest' gc hb]
        simp [ih]
      · have hb' : isBlank line = false := by
          cases h : isBlank line
          · rfl
          · exact absurd h hb
        cases hlook : List.lookup (getDiagonalCacheKey p (lineShift p n s)) gc.entries with
        | some gval =>
            rw [diagGo_cons_hit gb p n s line rest' gc gval hb' hlook]
            simp [ih]
        | none =>
            rw [diagGo_cons_miss gb p n s line rest' gc hb' hlook]
            simp [ih]

/-- For any cache state, the diagonal loop passes blank lines through at
their position. -/
theorem diagGo_blank (gb : List String → GradFn) (p : List String) (n : Nat) :
    ∀ (rest : List String) (s : Nat) (gc : LRUCache GradFn) (j : Nat),
      isBlank (rest.getD j "") = true → j < rest.length →
      (diagGo gb p n s rest gc).1.getD j "" = rest.getD j "" := by
  intro rest
  induction rest with
  | nil => intro s gc j _ hj; simp at hj
  | cons line rest' ih =>
      intro s gc j hbj hj
      cases j with
      | zero =>
          have hb : isBlank line = true := hbj
          rw [diagGo_cons_blank gb p n s line rest' gc hb]
          rfl
      | succ j =>
          have hbj' : isBlank (rest'.getD j "") = true := hbj
          have hj' : j < rest'.length := by simpa using hj
          by_cases hb : isBlank line = true
          · rw [diagGo_cons_blank gb p n s line rest' gc hb]
            exact ih (s + 1) gc j hbj' hj'
          · have hb' : isBlank line = false := by
              cases h : isBlank line
              · rfl
              · exact absurd h hb
            cases hlook : List.lookup (getDiagonalCacheKey p (lineShift p n s))
                gc.entries with
            | some gval =>
                rw [diagGo_cons_hit gb p n s line rest' gc gval hb' hlook]
                exact ih (s + 1) _ j hbj' hj'
            | none =>
                rw [diagGo_cons_miss gb p n s line rest' gc hb' hlook]
                exact ih (s + 1) _ j hbj' hj'

theorem getD_map_of_lt {α β : Type} (f : α → β) (l : List α) (i : Nat)
    (d : β) (d' : α) (h : i < l.length) :
    (l.map f).getD i d = f (l.getD i d') := by
  rw [List.getD_eq_getElem?_getD, List.getElem?_map, List.getElem?_eq_getElem h]
  rw [List.getD_eq_getElem?_getD, List.getElem?_eq_getElem h]
  rfl

/-- Modelled from the spec: the external Gradient Interpolator's
multiline convenience mode (gradient-string's `.multiline`), which is
not part of this repository.  Per §4.2, it walks rows top-to-bottom and
assigns each non-blank row a single interpolated color, "while blank
lines pass through unmodified"; the coloring itself stays opaque
(`colorAtRow` receives the row index, the row count and the row). -/
def specMultilineLines (colorAtRow : Nat → Nat → String → String)
    (ls : List String) : List String :=
  (List.range' 0 ls.length).map fun i =>
    if isBlank (ls.getD i "") then ls.getD i ""
    else colorAtRow i ls.length (ls.getD i "")

/-- Modelled from the spec: the string form of `specMultilineLines`. -/
def specMultiline (colorAtRow : Nat → Nat → String → String)
    (block : String) : String :=
  joinLines (specMultilineLines colorAtRow (splitLines block))

/-- Modelled from the spec: a gradient-string value whose `.multiline`
follows the §4.2 contract, with opaque per-line and per-row coloring. -/
def specGradFn (lineColor : List String → String → String)
    (colorAtRow : List String → Nat → Nat → String → String)
    (palette : List String) : GradFn :=
  ⟨lineColor palette, specMultiline (colorAtRow palette)⟩

/-- C4 — Blank-line invariance: a line of the glyph block that is empty
or all-whitespace is emitted unchanged at the same position by all three
strategies.  Horizontal and diagonal are the repository's own code (the
diagonal conjunct holds for *any* cache state and its output has the
same number of lines); the vertical strategy delegates to the external
interpolator's multiline mode, modelled from the spec (`specGradFn`).
The statements are parametric in every coloring function (`g`, `gb`,
`lineColor`, `colorAtRow`), so the blank line's value never depends on
the ramp — the ramp is not consulted for such a line. -/
theorem c4_blank_line_invariance
    (g : GradFn) (gb : List String → GradFn) (p : List String)
    (gc : LRUCache GradFn)
    (lineColor : List String → String → String)
    (colorAtRow : List String → Nat → Nat → String → String)
    (art : String) (i : Nat)
    (hi : i < (splitLines art).length)
    (hb : isBlank ((splitLines art).getD i "") = true) :
    (processHorizontalGradient g art
        = joinLines ((splitLines art).map fun line =>
            if isBlank line then line else g.applyLine line)
      ∧ ((splitLines art).map fun line =>
          if isBlank line then line else g.applyLine line).getD i ""
        = (splitLines art).getD i "")
    ∧ (processDiagonalGradient gb gc art p
        = (joinLines (diagGo gb p (splitLines art).length 0 (splitLines art) gc).1,
            (diagGo gb p (splitLines art).length 0 (splitLines art) gc).2)
      ∧ (diagGo gb p (splitLines art).length 0 (splitLines art) gc).1.length
          = (splitLines art).length
      ∧ (diagGo gb p (splitLines art).length 0 (splitLines art) gc).1.getD i ""
        = (splitLines art).getD i "")
    ∧ ((specGradFn lineColor colorAtRow p).multiline art
        = joinLines (specMultilineLines (colorAtRow p) (splitLines art))
      ∧ (specMultilineLines (colorAtRow p) (splitLines art)).length
          = (splitLines art).length
      ∧ (specMultilineLines (colorAtRow p) (splitLines art)).getD i ""
        = (splitLines art).getD i "") := by
  refine ⟨⟨rfl, ?_⟩, ⟨rfl, diagGo_length .., diagGo_blank gb p _ _ 0 gc i hb hi⟩,
    rfl, ?_, ?_⟩
  · rw [getD_map_of_lt _ _ i "" "" hi, hb]
    simp
  · unfold specMultilineLines
    simp
  · unfold specMultilineLines
    rw [getD_map_range' _ _ i "" hi, hb]
    simp

/-- Witness for C4: a three-line block whose middle line is
all-whitespace. -/
theorem c4_blank_line_invariance_witness :
    (1 < (splitLines "AA\n  \nBB").length
      ∧ isBlank ((splitLines "AA\n  \nBB").getD 1 "") = true)
    ∧ ((diagGo obsGrad ["a", "b"] (splitLines "AA\n  \nBB").length 0
          (splitLines "AA\n  \nBB") (LRUCache.empty GradFn 200)).1.getD 1 ""
        = (splitLines "AA\n  \nBB").getD 1 ""
      ∧ ((splitLines "AA\n  \nBB").map fun line =>
          if isBlank line then line
          else (obsGrad ["a", "b"]).applyLine line).getD 1 ""
        = (splitLines "AA\n  \nBB").getD 1 "") :=
  ⟨⟨by decide, by decide⟩,
    (c4_blank_line_invariance (obsGrad ["a", "b"]) obsGrad ["a", "b"]
      (LRUCache.empty GradFn 200) (fun pal l => joinComma pal ++ "|" ++ l)
      (fun _ i n l => l) "AA\n  \nBB" 1 (by decide) (by decide)).2.1.2.2,
    (c4_blank_line_invariance (obsGrad ["a", "b"]) obsGrad ["a", "b"]
      (LRUCache.empty GradFn 200) (fun pal l => joinComma pal ++ "|" ++ l)
      (fun _ i n l => l) "AA\n  \nBB" 1 (by decide) (by decide)).1.2⟩

/-! ## C8, C9: palette resolution (palettes.ts, lib.ts) -/

/-- The `PALETTES` table. -/
def PALETTES : List (String × List String) :=
  [("grad-blue", ["#4ea8ff", "#7f88ff"]),
   ("sunset", ["#ff9966", "#ff5e62", "#ffa34e"]),
   ("dawn", ["#00c6ff", "#0072ff"]),
   ("nebula", ["#654ea3", "#eaafc8"]),
   ("mono", ["#f07178", "#f07178"]),
   ("ocean", ["#667eea", "#764ba2"]),
   ("fire", ["#ff0844", "#ffb199"]),
   ("forest", ["#134e5e", "#71b280"]),
   ("gold", ["#f7971e", "#ffd200"]),
   ("purple", ["#667db6", "#0082c8", "#0078ff"]),
   ("mint", ["#00d2ff", "#3a7bd5"]),
   ("coral", ["#ff9a9e", "#fecfef"]),
   ("matrix", ["#00ff41", "#008f11"])]

/-- `resolvePalette(name)` (palettes.ts), value-level view: consult the
palette cache (`if (cached) return cached` — a JS array, even an empty
one, is truthy), else look the name up in `PALETTES`, cache a copy and
return it.  (Reference-level aliasing is treated in
`resolvePaletteRef`.) -/
def resolvePalette (st : LRUCache (List String)) (name : String) :
    Option (List String) × LRUCache (List String) :=
  let c := st.get name
  match c.1 with
  | some cached => (some cached, c.2)
  | none =>
      match List.lookup name PALETTES with
      | none => (none, c.2)
      | some palette => (some palette, c.2.set name palette)

/-- `resolveColors(palette)` (lib.ts): an explicit array is returned
as-is (`if (Array.isArray(palette)) return palette;`); a name is
resolved, `null` becoming a thrown `Unknown palette` error. -/
def resolveColors (st : LRUCache (List String))
    (palette : List String ⊕ String) :
    Except String (List String) × LRUCache (List String) :=
  match palette with
  | Sum.inl arr => (Except.ok arr, st)
  | Sum.inr name =>
      let r := resolvePalette st name
      match r.1 with
      | none => (Except.error ("Unknown palette: " ++ name), r.2)
      | some colors => (Except.ok colors, r.2)

/-- C8 counterexample: an explicit *empty* color array is not rejected —
`resolveColors` returns it as-is instead of failing with an
InvalidPalette-class error. -/
theorem c8_counterexample :
    (resolveColors (LRUCache.empty (List String) 50) (Sum.inl [])).1
      = Except.ok [] := rfl

/-- C8 (amended) — Palette resolution: an explicit color array passes
through `resolveColors` completely unvalidated — including the empty
array, which the claim said would be rejected (`c8_counterexample`); an
InvalidPalette-class error is raised only for an unknown palette *name*.
The cache hypothesis says every cached entry agrees with the `PALETTES`
table, which holds for every reachable palette-cache state. -/
theorem c8_empty_palette (st : LRUCache (List String)) (arr : List String)
    (name : String)
    (hst : ∀ kg ∈ st.entries, List.lookup kg.1 PALETTES = some kg.2) :
    ((resolveColors st (Sum.inl arr)).1 = Except.ok arr)
    ∧ (List.lookup name PALETTES = none →
        (resolveColors st (Sum.inr name)).1
          = Except.error ("Unknown palette: " ++ name))
    ∧ (∀ cols, List.lookup name PALETTES = some cols →
        (resolveColors st (Sum.inr name)).1 = Except.ok cols) := by
  refine ⟨rfl, ?_, ?_⟩
  · intro htable
    have hmiss : List.lookup name st.entries = none := by
      cases h : List.lookup name st.entries with
      | none => rfl
      | some v =>
          have := hst _ (mem_of_lookup_eq_some h)
          simp only at this
          rw [htable] at this
          exact Option.noConfusion this
    have hfst : (st.get name).1 = none := by rw [get_fst, hmiss]
    unfold resolveColors resolvePalette
    simp only [hfst, htable]
  · intro cols htable
    unfold resolveColors resolvePalette
    cases h : List.lookup name st.entries with
    | some v =>
        have hv := hst _ (mem_of_lookup_eq_some h)
        simp only at hv
        rw [htable] at hv
        have hfst : (st.get name).1 = some v := by rw [get_fst, h]
        simp only [hfst]
        rw [Option.some.injEq] at hv
        rw [hv]
    | none =>
        have hfst : (st.get name).1 = none := by rw [get_fst, h]
        simp only [hfst, htable]

/-- Witness for C8 on the empty cache, an explicit array, and both an
unknown and a known name. -/
theorem c8_empty_palette_witness :
    (∀ kg ∈ (LRUCache.empty (List String) 50).entries,
      List.lookup kg.1 PALETTES = some kg.2)
    ∧ ((resolveColors (LRUCache.empty (List String) 50)
        (Sum.inl ["#123456"])).1 = Except.ok ["#123456"])
    ∧ (List.lookup "no-such-palette" PALETTES = none →
        (resolveColors (LRUCache.empty (List String) 50)
          (Sum.inr "no-such-palette")).1
          = Except.error ("Unknown palette: " ++ "no-such-palette")) :=
  ⟨fun kg hkg => absurd hkg (List.not_mem_nil kg),
    (c8_empty_palette (LRUCache.empty (List String) 50) ["#123456"]
      "no-such-palette" (fun kg hkg => absurd hkg (List.not_mem_nil kg))).1,
    (c8_empty_palette (LRUCache.empty (List String) 50) ["#123456"]
      "no-such-palette" (fun kg hkg => absurd hkg (List.not_mem_nil kg))).2.1⟩

/-- The JS heap made explicit for `resolvePalette`: arrays live in a
store and are passed by reference. -/
structure PaletteStore where
  heap : List (List String)
  cache : LRUCache Nat
deriving Repr

/-- A fresh module state: empty heap, empty palette cache
(`paletteCacheSize: 50`). -/
def PaletteStore.empty : PaletteStore := ⟨[], LRUCache.empty Nat 50⟩

def readRef (st : PaletteStore) (r : Nat) : List String := st.heap.getD r []

def writeRef (st : PaletteStore) (r : Nat) (v : List String) : PaletteStore :=
  { st with heap := st.heap.set r v }

/-- `resolvePalette(name)` (palettes.ts) at the reference level: on a
cache hit the *stored reference* is returned (`if (cached) return
cached`); on a miss `[...palette]` allocates a fresh array, whose
reference is cached (`setPalette`) and returned — the same reference
that later hits return. -/
def resolvePaletteRef (st : PaletteStore) (name : String) :
    Option Nat × PaletteStore :=
  let c := st.cache.get name
  match c.1 with
  | some r => (some r, { st with cache := c.2 })
  | none =>
      match List.lookup name PALETTES with
      | none => (none, { st with cache := c.2 })
      | some palette =>
          let r := st.heap.length
          (some r, { heap := st.heap ++ [palette], cache := c.2.set name r })

/-- C9 counterexample: resolving `"sunset"` twice returns the *same*
array reference both times (the second call hits the cache and returns
the stored reference), so mutating the array returned by the first call
is visible through the second call's result — the two calls do share
one mutable array. -/
theorem c9_counterexample :
    ((resolvePaletteRef PaletteStore.empty "sunset").1 = some 0)
    ∧ ((resolvePaletteRef (resolvePaletteRef PaletteStore.empty "sunset").2
        "sunset").1 = some 0)
    ∧ (readRef (resolvePaletteRef (resolvePaletteRef PaletteStore.empty "sunset").2
        "sunset").2 0 = ["#ff9966", "#ff5e62", "#ffa34e"])
    ∧ (readRef (writeRef (resolvePaletteRef
          (resolvePaletteRef PaletteStore.empty "sunset").2 "sunset").2
          0 ["#000000", "#000000", "#000000"]) 0
        = ["#000000", "#000000", "#000000"]) := by
  refine ⟨by decide, by decide, by decide, by decide⟩

/-- C9 (amended) — Palette resolution round-trip: for every known
palette name, calling `resolvePalette` twice from a fresh state yields
element-wise equal color lists (both read the table's colors), *but the
two calls return the same array reference* — the first call returns the
array it stores in the cache and the second call returns that cached
array, so a mutation through the first result is visible through the
second (no independent copies across calls; the claim's no-aliasing
part is refuted by `c9_counterexample`). -/
theorem c9_palette_roundtrip (name : String) (cols : List String)
    (htable : List.lookup name PALETTES = some cols) :
    ((resolvePaletteRef PaletteStore.empty name).1 = some 0)
    ∧ ((resolvePaletteRef (resolvePaletteRef PaletteStore.empty name).2 name).1
        = some 0)
    ∧ (readRef (resolvePaletteRef PaletteStore.empty name).2 0 = cols)
    ∧ (readRef (resolvePaletteRef
        (resolvePaletteRef PaletteStore.empty name).2 name).2 0 = cols)
    ∧ (∀ v, readRef (writeRef (resolvePaletteRef
        (resolvePaletteRef PaletteStore.empty name).2 name).2 0 v) 0 = v) := by
  have hmiss : ((PaletteStore.empty).cache.get name).1 = none := by
    rw [get_fst]
    rfl
  have hstep1 : resolvePaletteRef PaletteStore.empty name
      = (some 0,
          ⟨[cols], ((PaletteStore.empty).cache.get name).2.set name 0⟩) := by
    unfold resolvePaletteRef
    simp only [hmiss, htable]
    rfl
  have hM : 1 ≤ (((PaletteStore.empty).cache.get name).2).maxSize := by
    rw [get_maxSize]
    show (1 : Nat) ≤ 50
    omega
  have hlook2 : List.lookup name
      ((((PaletteStore.empty).cache.get name).2).set name 0).entries = some 0 :=
    lookup_set_self _ name 0 hM
  have hfst2 : (((((PaletteStore.empty).cache.get name).2).set name 0).get name).1
      = some 0 := by
    rw [get_fst, hlook2]
  have hstep2 : resolvePaletteRef (resolvePaletteRef PaletteStore.empty name).2 name
      = (some 0,
          ⟨[cols], (((((PaletteStore.empty).cache.get name).2).set name 0).get
            name).2⟩) := by
    rw [hstep1]
    unfold resolvePaletteRef
    simp only [hfst2]
  refine ⟨?_, ?_, ?_, ?_, ?_⟩
  · rw [hstep1]
  · rw [hstep2]
  · rw [hstep1]
    rfl
  · rw [hstep2]
    rfl
  · intro v
    rw [hstep2]
    rfl

/-- Witness for C9 at the `"sunset"` palette. -/
theorem c9_palette_roundtrip_witness :
    (List.lookup "sunset" PALETTES = some ["#ff9966", "#ff5e62", "#ffa34e"])
    ∧ (readRef (resolvePaletteRef
        (resolvePaletteRef PaletteStore.empty "sunset").2 "sunset").2 0
      = ["#ff9966", "#ff5e62", "#ffa34e"]) :=
  ⟨by decide,
    (c9_palette_roundtrip "sunset" ["#ff9966", "#ff5e62", "#ffa34e"]
      (by decide)).2.2.2.1⟩
